import Mathlib

/-!
# squaresql: named SQL queries, lookup, dispatch and merge

A shallow embedding of `squaresql.go` (the store, its lookup, the eight
dispatch operations, `Raw`, `QueryMap`, `Load`, `LoadFromString`, `Merge`) and
of the line scanner (`getTag`, `Scanner.Run`).

Go values are embedded as follows.

* A `map[string]string` object is a `GoMap`: a finite list of entries with
  pairwise distinct keys. Map objects live in a `Heap`; a map *value* is a
  `MapRef`, either `nil` (`none`) or the address of a map object.
* A `*SquareSql` is `Option SquareSql`: the struct has one field that is
  never assigned after construction, so only nil-ness of the pointer matters.
* An `error` is `Option String`: `none` is `nil`, `some msg` an error whose
  message is `msg`.
* An executor (`Preparer`, `Queryer`, ...) is an interface value: a method
  acting on an arbitrary executor state `σ`. Every method call made by the
  embedded code is appended to a call log kept next to the executor state
  (`World`), so that "how often, and with which arguments, the executor was
  invoked" is a statement about the log.
-/

namespace Squaresql

/-! ## Go maps and the heap of map objects -/

/-- Go `error`: `none` is the nil error, `some msg` an error with message `msg`. -/
abbrev GoError := Option String

/-- One `map[string]string` object: its entries, with pairwise distinct keys. -/
structure GoMap where
  entries : List (String × String)
  nodup : (entries.map Prod.fst).Nodup

namespace GoMap

/-- The object made by `make(map[string]string)`. -/
def empty : GoMap := ⟨[], List.nodup_nil⟩

/-- Map read `v, ok := m[k]`: `some v` when `ok`, `none` otherwise. -/
def get (m : GoMap) (k : String) : Option String :=
  List.lookup k m.entries

/-- Entries of a map other than the one stored under `k`. -/
def others (k : String) (es : List (String × String)) : List (String × String) :=
  es.filter (fun e => decide (e.1 ≠ k))

/-- Map write `m[k] = v`: the entry under `k` is replaced or created. -/
def set (m : GoMap) (k v : String) : GoMap :=
  ⟨(k, v) :: others k m.entries,
    by
      simp only [List.map_cons, List.nodup_cons]
      refine ⟨?_, m.nodup.sublist ((List.filter_sublist m.entries).map Prod.fst)⟩
      intro hk
      rcases List.mem_map.1 hk with ⟨e, he, hke⟩
      have hne := (List.mem_filter.1 he).2
      simp [hke] at hne⟩

/-- The key/value pairs visited by `for k, v := range m`, in the order visited.
Go leaves the order open; here it is the order of `entries`, which is any
order, since a `GoMap` may list its entries in any order. -/
def range (m : GoMap) : List (String × String) := m.entries

end GoMap

/-- The heap of map objects; a map object's address is its index. -/
abbrev Heap := List GoMap

/-- A value of type `map[string]string`: nil, or the address of a map object. -/
abbrev MapRef := Option Nat

namespace Heap

/-- The map object a map value denotes for reading: a nil map reads as the
empty map. -/
def read (h : Heap) : MapRef → GoMap
  | none => GoMap.empty
  | some a => h.getD a GoMap.empty

/-- Whether a map value is nil or the address of an allocated object. -/
def valid (h : Heap) : MapRef → Prop
  | none => True
  | some a => a < h.length

/-- Allocation `make(map[string]string)`: a fresh empty object at the next address. -/
def alloc (h : Heap) : Heap × Nat := (h ++ [GoMap.empty], h.length)

/-- The write `m[k] = v` through the address `a` of a map object. -/
def write (h : Heap) (a : Nat) (k v : String) : Heap :=
  h.modify (fun m => m.set k v) a

end Heap

/-! ## The store and its lookup -/

/-- The struct `SquareSql`, with its only field. -/
structure SquareSql where
  queries : MapRef

/-- The error built by `fmt.Errorf("dotsql: '%s' could not be found", name)`. -/
def notFound (name : String) : GoError :=
  some ("dotsql: '" ++ name ++ "' could not be found")

/-- The method `lookupQuery`: the named results `(query, err)`. -/
def lookupQuery (h : Heap) (s : SquareSql) (name : String) : String × GoError :=
  match (h.read s.queries).get name with
  | some query => (query, none)
  | none => ("", notFound name)

/-! ## Executors -/

/-- Which executor method a logged call went to. -/
inductive Method
  | Prepare | PrepareContext | Query | QueryContext
  | QueryRow | QueryRowContext | Exec | ExecContext
  deriving DecidableEq, Repr

/-- One call made to an executor: the method, the context passed (for the
context variants), the query string and the argument list. -/
structure Call (Ctx Arg : Type) where
  method : Method
  ctx : Option Ctx
  query : String
  args : List Arg

/-- The executor state together with the log of the calls made to it so far. -/
structure World (σ Ctx Arg : Type) where
  db : σ
  calls : List (Call Ctx Arg)

/-- The number of calls made to the executor so far. -/
def World.callNumber {σ Ctx Arg : Type} (w : World σ Ctx Arg) : Nat := w.calls.length

variable {σ Ctx Arg Stmt Rows Row Result : Type}

/-- Interface `Preparer`. -/
structure Preparer (σ Stmt : Type) where
  Prepare : String → σ → (Option Stmt × GoError) × σ

/-- Interface `PreparerContext`. -/
structure PreparerContext (σ Ctx Stmt : Type) where
  PrepareContext : Ctx → String → σ → (Option Stmt × GoError) × σ

/-- Interface `Queryer`. -/
structure Queryer (σ Arg Rows : Type) where
  Query : String → List Arg → σ → (Option Rows × GoError) × σ

/-- Interface `QueryerContext`. -/
structure QueryerContext (σ Ctx Arg Rows : Type) where
  QueryContext : Ctx → String → List Arg → σ → (Option Rows × GoError) × σ

/-- Interface `QueryRower`. -/
structure QueryRower (σ Arg Row : Type) where
  QueryRow : String → List Arg → σ → Option Row × σ

/-- Interface `QueryRowerContext`. -/
structure QueryRowerContext (σ Ctx Arg Row : Type) where
  QueryRowContext : Ctx → String → List Arg → σ → Option Row × σ

/-- Interface `Execer`. -/
structure Execer (σ Arg Result : Type) where
  Exec : String → List Arg → σ → (Option Result × GoError) × σ

/-- Interface `ExecerContext`. -/
structure ExecerContext (σ Ctx Arg Result : Type) where
  ExecContext : Ctx → String → List Arg → σ → (Option Result × GoError) × σ

/-- A method call on an executor: the method runs on the executor state and
the call is appended to the log. -/
def invoke {R : Type} (c : Call Ctx Arg) (run : σ → R × σ) (w : World σ Ctx Arg) :
    R × World σ Ctx Arg :=
  ((run w.db).1, { db := (run w.db).2, calls := w.calls ++ [c] })

/-! ## The eight dispatch operations -/

/-- The method `SquareSql.Prepare`. -/
def SquareSql.Prepare (h : Heap) (s : SquareSql) (db : Preparer σ Stmt) (name : String)
    (w : World σ Ctx Arg) : (Option Stmt × GoError) × World σ Ctx Arg :=
  match lookupQuery h s name with
  | (_, some err) => ((none, some err), w)
  | (query, none) => invoke ⟨.Prepare, none, query, []⟩ (db.Prepare query) w

/-- The method `SquareSql.PrepareContext`. -/
def SquareSql.PrepareContext (h : Heap) (s : SquareSql) (ctx : Ctx)
    (db : PreparerContext σ Ctx Stmt) (name : String)
    (w : World σ Ctx Arg) : (Option Stmt × GoError) × World σ Ctx Arg :=
  match lookupQuery h s name with
  | (_, some err) => ((none, some err), w)
  | (query, none) =>
    invoke ⟨.PrepareContext, some ctx, query, []⟩ (db.PrepareContext ctx query) w

/-- The method `SquareSql.Query`. -/
def SquareSql.Query (h : Heap) (s : SquareSql) (db : Queryer σ Arg Rows) (name : String)
    (args : List Arg) (w : World σ Ctx Arg) : (Option Rows × GoError) × World σ Ctx Arg :=
  match lookupQuery h s name with
  | (_, some err) => ((none, some err), w)
  | (query, none) => invoke ⟨.Query, none, query, args⟩ (db.Query query args) w

/-- The method `SquareSql.QueryContext`. -/
def SquareSql.QueryContext (h : Heap) (s : SquareSql) (ctx : Ctx)
    (db : QueryerContext σ Ctx Arg Rows) (name : String) (args : List Arg)
    (w : World σ Ctx Arg) : (Option Rows × GoError) × World σ Ctx Arg :=
  match lookupQuery h s name with
  | (_, some err) => ((none, some err), w)
  | (query, none) =>
    invoke ⟨.QueryContext, some ctx, query, args⟩ (db.QueryContext ctx query args) w

/-- The method `SquareSql.QueryRow`. -/
def SquareSql.QueryRow (h : Heap) (s : SquareSql) (db : QueryRower σ Arg Row) (name : String)
    (args : List Arg) (w : World σ Ctx Arg) : (Option Row × GoError) × World σ Ctx Arg :=
  match lookupQuery h s name with
  | (_, some err) => ((none, some err), w)
  | (query, none) =>
    let r := invoke ⟨.QueryRow, none, query, args⟩ (db.QueryRow query args) w
    ((r.1, none), r.2)

/-- The method `SquareSql.QueryRowContext`. -/
def SquareSql.QueryRowContext (h : Heap) (s : SquareSql) (ctx : Ctx)
    (db : QueryRowerContext σ Ctx Arg Row) (name : String) (args : List Arg)
    (w : World σ Ctx Arg) : (Option Row × GoError) × World σ Ctx Arg :=
  match lookupQuery h s name with
  | (_, some err) => ((none, some err), w)
  | (query, none) =>
    let r := invoke ⟨.QueryRowContext, some ctx, query, args⟩
      (db.QueryRowContext ctx query args) w
    ((r.1, none), r.2)

/-- The method `SquareSql.Exec`. -/
def SquareSql.Exec (h : Heap) (s : SquareSql) (db : Execer σ Arg Result) (name : String)
    (args : List Arg) (w : World σ Ctx Arg) : (Option Result × GoError) × World σ Ctx Arg :=
  match lookupQuery h s name with
  | (_, some err) => ((none, some err), w)
  | (query, none) => invoke ⟨.Exec, none, query, args⟩ (db.Exec query args) w

/-- The method `SquareSql.ExecContext`. -/
def SquareSql.ExecContext (h : Heap) (s : SquareSql) (ctx : Ctx)
    (db : ExecerContext σ Ctx Arg Result) (name : String) (args : List Arg)
    (w : World σ Ctx Arg) : (Option Result × GoError) × World σ Ctx Arg :=
  match lookupQuery h s name with
  | (_, some err) => ((none, some err), w)
  | (query, none) =>
    invoke ⟨.ExecContext, some ctx, query, args⟩ (db.ExecContext ctx query args) w

/-- The method `SquareSql.Raw`. -/
def SquareSql.Raw (h : Heap) (s : SquareSql) (name : String) : String × GoError :=
  lookupQuery h s name

/-- The method `SquareSql.QueryMap`: the map value held by the store (the
same reference, not a copy). -/
def SquareSql.QueryMap (s : SquareSql) : MapRef := s.queries

/-! ## Test doubles (`mock_test.go`) and the store of the dispatch tests -/

/-- Go `cn++` on an `int` of 64 bits: the increment wraps around. -/
def incInt (cn : Int) : Int := (cn + 1 + 2 ^ 63) % 2 ^ 64 - 2 ^ 63

/-- Test double `PreparerMock`: the state is the counter `cn`; `Prepare` counts the call
and returns what `PrepareFunc` returns. -/
def PreparerMock (PrepareFunc : String → Option Stmt × GoError) : Preparer Int Stmt :=
  ⟨fun query cn => (PrepareFunc query, incInt cn)⟩

/-- Test double `PreparerContextMock`, built like `PreparerMock`. -/
def PreparerContextMock (PrepareContextFunc : Ctx → String → Option Stmt × GoError) :
    PreparerContext Int Ctx Stmt :=
  ⟨fun ctx query cn => (PrepareContextFunc ctx query, incInt cn)⟩

/-- Test double `QueryerMock`, built like `PreparerMock`. -/
def QueryerMock (QueryFunc : String → List Arg → Option Rows × GoError) :
    Queryer Int Arg Rows :=
  ⟨fun name args cn => (QueryFunc name args, incInt cn)⟩

/-- Test double `QueryerContextMock`, built like `PreparerMock`. -/
def QueryerContextMock (QueryContextFunc : Ctx → String → List Arg → Option Rows × GoError) :
    QueryerContext Int Ctx Arg Rows :=
  ⟨fun ctx name args cn => (QueryContextFunc ctx name args, incInt cn)⟩

/-- Test double `QueryRowerMock`, built like `PreparerMock`. -/
def QueryRowerMock (QueryRowFunc : String → List Arg → Option Row) :
    QueryRower Int Arg Row :=
  ⟨fun name args cn => (QueryRowFunc name args, incInt cn)⟩

/-- Test double `QueryRowerContextMock`, built like `PreparerMock`. -/
def QueryRowerContextMock (QueryRowContextFunc : Ctx → String → List Arg → Option Row) :
    QueryRowerContext Int Ctx Arg Row :=
  ⟨fun ctx name args cn => (QueryRowContextFunc ctx name args, incInt cn)⟩

/-- Test double `ExecerMock`, built like `PreparerMock`. -/
def ExecerMock (ExecFunc : String → List Arg → Option Result × GoError) :
    Execer Int Arg Result :=
  ⟨fun name args cn => (ExecFunc name args, incInt cn)⟩

/-- Test double `ExecerContextMock`, built like `PreparerMock`. -/
def ExecerContextMock (ExecContextFunc : Ctx → String → List Arg → Option Result × GoError) :
    ExecerContext Int Ctx Arg Result :=
  ⟨fun ctx name args cn => (ExecContextFunc ctx name args, incInt cn)⟩

/-- The heap of the dispatch tests: one map object,
`map[string]string{"select": "SELECT * from products"}`. -/
def testHeap : Heap := [⟨[("select", "SELECT * from products")], by decide⟩]

/-- The store `square` of the dispatch tests. -/
def square : SquareSql := { queries := some 0 }

/-- A fresh mock: counter zero, no call logged. -/
def freshMock : World Int Unit String := { db := 0, calls := [] }

/-- The heap of `TestMergeHaveBothQueries`, with a third map that shares the
name `query-a` with the first. -/
def mergeHeap : Heap :=
  [⟨[("query-a", "SELECT * FROM a")], by decide⟩,
   ⟨[("query-b", "SELECT * FROM b")], by decide⟩,
   ⟨[("query-a", "SELECT 1"), ("query-c", "SELECT * FROM c")], by decide⟩]

/-- The stores over `mergeHeap`, one per map object. -/
def mergeStores : List SquareSql :=
  [{ queries := some 0 }, { queries := some 1 }, { queries := some 2 }]

/-! ## Merge -/

/-- The inner loop of `Merge`, `for k, v := range dot.QueryMap() { queries[k] = v }`,
run over the pairs `kvs` the range visits; `q` is the address of `queries`. -/
def mergeInto (h : Heap) (q : Nat) (kvs : List (String × String)) : Heap :=
  kvs.foldl (fun h1 kv => h1.write q kv.1 kv.2) h

/-- The outer loop of `Merge`, `for _, dot := range dots`. A nil `dot` makes
`dot.QueryMap()` dereference a nil pointer: the run panics (`none`). -/
def mergeLoop (h : Heap) (q : Nat) : List (Option SquareSql) → Option Heap
  | [] => some h
  | none :: _ => none
  | some dot :: rest => mergeLoop (mergeInto h q (h.read dot.QueryMap).range) q rest

/-- The function `Merge`: the heap after the call and the store the returned
pointer points to, or `none` when the run panics. -/
def Merge (h : Heap) (dots : List (Option SquareSql)) : Option (Heap × SquareSql) :=
  let hq := h.alloc
  (mergeLoop hq.1 hq.2 dots).map (fun h2 => (h2, { queries := some hq.2 }))

/-- The map object `Merge` builds from the stores `stores` read in heap `h`:
the writes of both loops applied, in order, to the fresh empty object. -/
def mergedMap (h : Heap) (stores : List SquareSql) : GoMap :=
  stores.foldl
    (fun m s => (h.read s.queries).range.foldl (fun m1 kv => m1.set kv.1 kv.2) m)
    GoMap.empty

/-- The value the store `s` holds for `name` in heap `h`, if `name` is a key. -/
def SquareSql.valueOf (h : Heap) (s : SquareSql) (name : String) : Option String :=
  (h.read s.queries).get name

/-- The store holds the entry `name ↦ t`: the pair is an entry of its map. -/
def SquareSql.holds (h : Heap) (s : SquareSql) (name t : String) : Prop :=
  (name, t) ∈ (h.read s.queries).entries

/-- The name is a key of the store's map. -/
def SquareSql.hasKey (h : Heap) (s : SquareSql) (name : String) : Prop :=
  name ∈ (h.read s.queries).entries.map Prod.fst

instance (h : Heap) (s : SquareSql) (name t : String) : Decidable (s.holds h name t) := by
  unfold SquareSql.holds; infer_instance

instance (h : Heap) (s : SquareSql) (name : String) : Decidable (s.hasKey h name) := by
  unfold SquareSql.hasKey; infer_instance

instance (h : Heap) (r : MapRef) : Decidable (h.valid r) := by
  cases r <;> unfold Heap.valid <;> infer_instance

/-! ## The scanner

The repository sources this development is written from hold the scanner's
tests but not the scanner itself: `getTag` and `Scanner.Run` are modelled from
the specification, section 4.1, and where the tests of the repository
(`TestGetTag`, `TestRun`, `TestLoad`, `TestQueries`) say otherwise or more
than the specification, from the tests. -/

/-- Modelled from the spec: the whitespace class `\s` of the tag pattern
(space, tab, line feed, vertical tab, form feed, carriage return). -/
def isSpace (c : Char) : Bool :=
  c = ' ' || c = '\t' || c = '\n' || c = '\r' || c.toNat = 11 || c.toNat = 12

/-- Modelled from the spec: leading whitespace removed. -/
def trimLeft (cs : List Char) : List Char := cs.dropWhile isSpace

/-- Modelled from the spec: trailing whitespace removed. -/
def trimRight (cs : List Char) : List Char := (cs.reverse.dropWhile isSpace).reverse

/-- Modelled from the spec: "trimming leading/trailing whitespace". -/
def trim (cs : List Char) : List Char := trimRight (trimLeft cs)

/-- Modelled from the spec: "starts with" a literal. What follows the literal
at the start of `cs`, when `cs` starts with it. -/
def stripLit : List Char → List Char → Option (List Char)
  | [], cs => some cs
  | _ :: _, [] => none
  | p :: ps, c :: cs => if p = c then stripLit ps cs else none

/-- Modelled from the spec: the name portion of a tag line, trimmed; `none`
when the line is not a tag line. "A line is a tag line iff, after trimming
leading/trailing whitespace, it starts with `--` followed by optional
whitespace, literal `name:`, then a name; the name itself is trimmed of
surrounding whitespace." The name may be empty. -/
def tagName (line : String) : Option String :=
  match stripLit "--".data (trim line.data) with
  | none => none
  | some afterDashes =>
    match stripLit "name:".data (trimLeft afterDashes) with
    | none => none
    | some name => some (String.mk (trim name))

/-- Modelled from the spec: whether the line matches `name:` as a tag line
(its name may be empty or blank). -/
def isTagLine (line : String) : Bool := (tagName line).isSome

/-- Modelled from the spec: `getTag`, the tag extraction rule. The trimmed
name of a tag line; the empty string for a line that is no tag line and for a
tag line whose name portion is empty or all whitespace. -/
def getTag (line : String) : String := (tagName line).getD ""

/-- Modelled from the spec: the tag a tag line makes current. An empty
extracted name means "no active tag". -/
def activeTag (line : String) : Option String :=
  if getTag line = "" then none else some (getTag line)

/-- Modelled from the spec: a string in the trimmed view of the tag matcher, its
leading and trailing whitespace removed. -/
def trimSpace (s : String) : String := String.mk (trim s.data)

/-- A string of whitespace only (the empty string included). -/
def isBlank (s : String) : Bool := s.data.all isSpace

/-- Modelled from the spec: body lines "joined by a single newline character,
with no trailing newline added". -/
def joinLines (body : List String) : String := "\n".intercalate body

/-- Modelled from the spec: the scanner's state, the current tag (if any), the
accumulator of the current body and the result map. -/
structure Scanner where
  current : Option String
  body : List String
  queries : GoMap

/-- Modelled from the spec: step 1, "no current tag, an empty accumulator for
the current body". -/
def Scanner.init : Scanner := { current := none, body := [], queries := GoMap.empty }

/-- Modelled from the spec: "if a current tag is set and its accumulated body
is non-empty, commit (current tag → joined body) into the result map". The
body is a sequence of lines; it is empty when it has no line ("zero body
lines"). -/
def store (queries : GoMap) (current : Option String) (body : List String) : GoMap :=
  match current with
  | none => queries
  | some tag => if body = [] then queries else queries.set tag (joinLines body)

/-- Modelled from the spec: the commit of the scanner's current group. -/
def Scanner.commit (s : Scanner) : GoMap := store s.queries s.current s.body

/-- Modelled from the spec: step 2, the treatment of one input line. A tag line
commits the current group and makes its own tag current; any other line,
while a tag is active, is a line of the current body. In two points the tests
of the repository decide, against or beyond the words of section 4.1:
`TestRun`, `TestLoad` and `TestQueries` feed lines that start with a tab and
end with a line of one tab, and expect the stored text without the tabs and
without a trailing newline. So a body line is accumulated in the trimmed view
(section 3: "the per-line trim already applied by the tag matcher"; section
2: "trimmed query text"), not with its original content, and a line that is
blank in that view is not accumulated. -/
def Scanner.step (s : Scanner) (line : String) : Scanner :=
  if isTagLine line then
    { current := activeTag line, body := [], queries := s.commit }
  else
    match s.current with
    | some _ =>
      if trimSpace line = "" then s else { s with body := s.body ++ [trimSpace line] }
    | none => s

/-- Modelled from the spec: `Scanner.Run` over the input lines, steps 1 to 3:
every line is treated in order, and at the end of input the current group is
committed. -/
def Scanner.Run (lines : List String) : GoMap :=
  (lines.foldl Scanner.step Scanner.init).commit

/-- The groups an input declares, read off the lines: for every tag line, in
input order, the tag it makes current and its body lines, the non-tag lines
that follow it up to the next tag line or the end of input. -/
def groups : List String → List (Option String × List String)
  | [] => []
  | line :: rest =>
    if isTagLine line then
      (activeTag line, rest.takeWhile (fun l => !isTagLine l)) :: groups rest
    else groups rest

/-- The body lines of a group as they are stored: every line in the trimmed
view, the lines that are blank in that view left out. -/
def bodyOf : List String → List String
  | [] => []
  | line :: rest =>
    if trimSpace line = "" then bodyOf rest else trimSpace line :: bodyOf rest

/-- The value a declared group stores under `name`: its joined body when the
group is declared under `name` and has a body line that is not blank. -/
def valueIn (name : String) (g : Option String × List String) : Option String :=
  if g.1 = some name ∧ bodyOf g.2 ≠ [] then some (joinLines (bodyOf g.2)) else none

/-- The tag-line shape in the words of the specification: the line, after
trimming surrounding whitespace, consists of `--`, optional whitespace, the
literal `name:`, optional whitespace and the non-blank `name`. -/
def matchesTag (line name : String) : Prop :=
  ∃ ws1 ws2 : String, isBlank ws1 = true ∧ isBlank ws2 = true ∧ isBlank name = false ∧
    trimSpace line = "--" ++ ws1 ++ "name:" ++ ws2 ++ name

/-- The input of `TestRun`, line by line. -/
def testRunLines : List String :=
  ["",
   "\t-- name: all-products",
   "\t-- Finds all products",
   "\tSELECT * from products",
   "\t-- name: empty-query-should-not-be-stored",
   "\t-- name: save-products",
   "\tINSERT INTO products (?, ?, ?)",
   "\t"]

/-! ## The operations with the heap they leave

The lookup and dispatch methods read the store's map (`s.queries[name]`) and
contain no statement that writes a map or allocates one. Here they are
embedded once more as steps on a state that holds the heap of map objects.
The executor is caller's code: its method is a step on the whole state, the
heap included, since a Go executor can hold a map value, such as the one
`QueryMap` returned, and write to it. -/

namespace OnHeap

/-- The state of a run: the heap of map objects with the executor's own state,
and the log of the calls made to the executor. -/
abbrev Machine (σ Ctx Arg : Type) := World (Heap × σ) Ctx Arg

/-- The map read `v, ok := m[k]` as a step on the heap: a read leaves the heap
as it is. -/
def mapRead (r : MapRef) (k : String) (h : Heap) : Option String × Heap :=
  ((h.read r).get k, h)

/-- The method `lookupQuery`, with the heap it leaves. -/
def lookupQuery (s : SquareSql) (name : String) (h : Heap) : (String × GoError) × Heap :=
  match mapRead s.queries name h with
  | (some query, h1) => ((query, none), h1)
  | (none, h1) => (("", notFound name), h1)

/-- The method `SquareSql.Prepare` as a step on the state: the lookup
reads the heap, and on a hit the executor's method runs on the state the lookup left. -/
def Prepare (s : SquareSql) (db : Preparer (Heap × σ) Stmt) (name : String)
    (w : Machine σ Ctx Arg) : (Option Stmt × GoError) × Machine σ Ctx Arg :=
  match lookupQuery s name w.db.1 with
  | ((_, some err), h1) => ((none, some err), { w with db := (h1, w.db.2) })
  | ((query, none), h1) =>
    invoke ⟨.Prepare, none, query, []⟩ (db.Prepare query)
      { w with db := (h1, w.db.2) }

/-- The method `SquareSql.PrepareContext` as a step on the state: the lookup
reads the heap, and on a hit the executor's method runs on the state the lookup left. -/
def PrepareContext (s : SquareSql) (ctx : Ctx) (db : PreparerContext (Heap × σ) Ctx Stmt)
    (name : String)
    (w : Machine σ Ctx Arg) : (Option Stmt × GoError) × Machine σ Ctx Arg :=
  match lookupQuery s name w.db.1 with
  | ((_, some err), h1) => ((none, some err), { w with db := (h1, w.db.2) })
  | ((query, none), h1) =>
    invoke ⟨.PrepareContext, some ctx, query, []⟩ (db.PrepareContext ctx query)
      { w with db := (h1, w.db.2) }

/-- The method `SquareSql.Query` as a step on the state: the lookup
reads the heap, and on a hit the executor's method runs on the state the lookup left. -/
def Query (s : SquareSql) (db : Queryer (Heap × σ) Arg Rows) (name : String) (args : List Arg)
    (w : Machine σ Ctx Arg) : (Option Rows × GoError) × Machine σ Ctx Arg :=
  match lookupQuery s name w.db.1 with
  | ((_, some err), h1) => ((none, some err), { w with db := (h1, w.db.2) })
  | ((query, none), h1) =>
    invoke ⟨.Query, none, query, args⟩ (db.Query query args)
      { w with db := (h1, w.db.2) }

/-- The method `SquareSql.QueryContext` as a step on the state: the lookup
reads the heap, and on a hit the executor's method runs on the state the lookup left. -/
def QueryContext (s : SquareSql) (ctx : Ctx) (db : QueryerContext (Heap × σ) Ctx Arg Rows)
    (name : String) (args : List Arg)
    (w : Machine σ Ctx Arg) : (Option Rows × GoError) × Machine σ Ctx Arg :=
  match lookupQuery s name w.db.1 with
  | ((_, some err), h1) => ((none, some err), { w with db := (h1, w.db.2) })
  | ((query, none), h1) =>
    invoke ⟨.QueryContext, some ctx, query, args⟩ (db.QueryContext ctx query args)
      { w with db := (h1, w.db.2) }

/-- The method `SquareSql.QueryRow` as a step on the state: the lookup
reads the heap, and on a hit the executor's method runs on the state the lookup left. -/
def QueryRow (s : SquareSql) (db : QueryRower (Heap × σ) Arg Row) (name : String) (args : List Arg)
    (w : Machine σ Ctx Arg) : (Option Row × GoError) × Machine σ Ctx Arg :=
  match lookupQuery s name w.db.1 with
  | ((_, some err), h1) => ((none, some err), { w with db := (h1, w.db.2) })
  | ((query, none), h1) =>
    let r := invoke ⟨.QueryRow, none, query, args⟩ (db.QueryRow query args)
      { w with db := (h1, w.db.2) }
    ((r.1, none), r.2)

/-- The method `SquareSql.QueryRowContext` as a step on the state: the lookup
reads the heap, and on a hit the executor's method runs on the state the lookup left. -/
def QueryRowContext (s : SquareSql) (ctx : Ctx) (db : QueryRowerContext (Heap × σ) Ctx Arg Row)
    (name : String) (args : List Arg)
    (w : Machine σ Ctx Arg) : (Option Row × GoError) × Machine σ Ctx Arg :=
  match lookupQuery s name w.db.1 with
  | ((_, some err), h1) => ((none, some err), { w with db := (h1, w.db.2) })
  | ((query, none), h1) =>
    let r := invoke ⟨.QueryRowContext, some ctx, query, args⟩ (db.QueryRowContext ctx query args)
      { w with db := (h1, w.db.2) }
    ((r.1, none), r.2)

/-- The method `SquareSql.Exec` as a step on the state: the lookup
reads the heap, and on a hit the executor's method runs on the state the lookup left. -/
def Exec (s : SquareSql) (db : Execer (Heap × σ) Arg Result) (name : String) (args : List Arg)
    (w : Machine σ Ctx Arg) : (Option Result × GoError) × Machine σ Ctx Arg :=
  match lookupQuery s name w.db.1 with
  | ((_, some err), h1) => ((none, some err), { w with db := (h1, w.db.2) })
  | ((query, none), h1) =>
    invoke ⟨.Exec, none, query, args⟩ (db.Exec query args)
      { w with db := (h1, w.db.2) }

/-- The method `SquareSql.ExecContext` as a step on the state: the lookup
reads the heap, and on a hit the executor's method runs on the state the lookup left. -/
def ExecContext (s : SquareSql) (ctx : Ctx) (db : ExecerContext (Heap × σ) Ctx Arg Result)
    (name : String) (args : List Arg)
    (w : Machine σ Ctx Arg) : (Option Result × GoError) × Machine σ Ctx Arg :=
  match lookupQuery s name w.db.1 with
  | ((_, some err), h1) => ((none, some err), { w with db := (h1, w.db.2) })
  | ((query, none), h1) =>
    invoke ⟨.ExecContext, some ctx, query, args⟩ (db.ExecContext ctx query args)
      { w with db := (h1, w.db.2) }

/-- The method `SquareSql.Raw`, with the heap it leaves. -/
def Raw (s : SquareSql) (name : String) (h : Heap) : (String × GoError) × Heap :=
  lookupQuery s name h

/-- The method `SquareSql.QueryMap`, with the heap it leaves. -/
def QueryMap (s : SquareSql) (h : Heap) : MapRef × Heap := (s.queries, h)

end OnHeap

/-! ## A caller's writes through a map value -/

/-- The builtin `delete(m, k)` on a map object. -/
def GoMap.delete (m : GoMap) (k : String) : GoMap :=
  ⟨GoMap.others k m.entries, m.nodup.sublist ((List.filter_sublist m.entries).map Prod.fst)⟩

/-- A caller's `m[k] = v` on a map value `m`: an assignment to an entry of a
nil map panics (`none`); otherwise the map object is written. -/
def Heap.assign (h : Heap) (m : MapRef) (k v : String) : Option Heap :=
  match m with
  | none => none
  | some a => some (h.write a k v)

/-- A caller's `delete(m, k)` on a map value `m`: no effect on a nil map;
otherwise the entry is removed from the map object. -/
def Heap.delete (h : Heap) (m : MapRef) (k : String) : Heap :=
  match m with
  | none => h
  | some a => h.modify (fun o => o.delete k) a

/-- An executor that holds the map value `m`, say the one `QueryMap` returned,
and on `Exec` deletes the key `k` from it, counts the call and returns a nil
result and a nil error. -/
def deletingExecer (m : MapRef) (k : String) : Execer (Heap × Int) String Unit :=
  ⟨fun _ _ st => ((none, none), (st.1.delete m k, incInt st.2))⟩

/-- An executor that keeps to its own state: on `Exec` it counts the call and
returns a result and a nil error, and leaves the heap as it is. -/
def countingExecer : Execer (Heap × Int) String Unit :=
  ⟨fun _ _ st => ((some (), none), (st.1, incInt st.2))⟩

/-- A heap with one map object, `map[string]string{"blank": ""}`: a name whose
text is the empty string. -/
def blankHeap : Heap := [⟨[("blank", "")], by decide⟩]

/-! ## Loading -/

/-- The raw lines `bufio.ScanLines` cuts a text into, `cur` being the part of
the current line read so far: each newline ends a line, and a last line
without newline is a line when it is not empty. -/
def rawLinesFrom (cur : List Char) : List Char → List (List Char)
  | [] => if cur = [] then [] else [cur]
  | c :: cs => if c = '\n' then cur :: rawLinesFrom [] cs else rawLinesFrom (cur ++ [c]) cs

/-- Library function `dropCR` of `bufio`: one trailing carriage return is dropped. -/
def dropCR (line : List Char) : List Char :=
  if line.getLast? = some '\r' then line.dropLast else line

/-- The buffer limit `bufio.MaxScanTokenSize` of a `bufio.Scanner`. -/
def maxScanTokenSize : Nat := 64 * 1024

/-- The lines `bufio.NewScanner(r)` delivers, `Scan` by `Scan`, for a reader
that yields `text`: the raw lines with their end-of-line marker removed, up
to the first raw line that does not fit the scanner's buffer, where scanning
stops. -/
def scanLines (text : String) : List String :=
  ((rawLinesFrom [] text.data).takeWhile
    (fun l => decide ((String.mk l).utf8ByteSize < maxScanTokenSize))).map
    (fun l => String.mk (dropCR l))

/-- The function `Load`, for a reader that yields `text`: the heap after the
call (the map `Run` built is a new map object), the pointer returned and the
error returned. -/
def Load (h : Heap) (r : String) : Heap × Option SquareSql × GoError :=
  let queries := Scanner.Run (scanLines r)
  (h ++ [queries], some { queries := some h.length }, none)

/-- The function `LoadFromString`: `Load` on a buffer holding the string. -/
def LoadFromString (h : Heap) (sql : String) : Heap × Option SquareSql × GoError :=
  Load h sql

/-- The input of `TestLoad`. -/
def testLoadText : String := "\n\t-- name: all-products\n\tselect * from products\n\t"

/-- The input of the loading scenario of the specification. -/
def scenarioText : String := "-- name: all-products\nSELECT * from products"

/-! ## Lemmas on maps -/

theorem lookup_eq_none_iff (es : List (String × String)) (k : String) :
    List.lookup k es = none ↔ k ∉ es.map Prod.fst := by
  induction es with
  | nil => simp
  | cons e t ih =>
    obtain ⟨a, b⟩ := e
    by_cases hk : k = a
    · subst hk; simp [List.lookup_cons]
    · have hb : (k == a) = false := by simp [hk]
      rw [List.lookup_cons, hb, List.map_cons, List.mem_cons, not_or]
      exact ⟨fun hl => ⟨hk, ih.1 hl⟩, fun hr => ih.2 hr.2⟩

theorem lookup_eq_some_iff (es : List (String × String)) (hn : (es.map Prod.fst).Nodup)
    (k v : String) : List.lookup k es = some v ↔ (k, v) ∈ es := by
  induction es with
  | nil => simp
  | cons e t ih =>
    obtain ⟨a, b⟩ := e
    simp only [List.map_cons, List.nodup_cons] at hn
    by_cases hk : k = a
    · subst hk
      have hnot : ∀ x, (k, x) ∉ t := fun x hx => hn.1 (List.mem_map.2 ⟨(k, x), hx, rfl⟩)
      simp [List.lookup_cons, hnot]
      exact eq_comm
    · have hb : (k == a) = false := by simp [hk]
      rw [List.lookup_cons, hb, List.mem_cons]
      constructor
      · intro hl; exact Or.inr ((ih hn.2).1 hl)
      · rintro (heq | hmem)
        · exact absurd (Prod.mk.inj heq).1 hk
        · exact (ih hn.2).2 hmem

theorem GoMap.get_eq_some_iff (m : GoMap) (k v : String) :
    m.get k = some v ↔ (k, v) ∈ m.entries :=
  lookup_eq_some_iff m.entries m.nodup k v

theorem GoMap.get_eq_none_iff (m : GoMap) (k : String) :
    m.get k = none ↔ k ∉ m.entries.map Prod.fst :=
  lookup_eq_none_iff m.entries k

theorem hasKey_iff (h : Heap) (s : SquareSql) (name : String) :
    s.hasKey h name ↔ ∃ t, s.holds h name t := by
  unfold SquareSql.hasKey SquareSql.holds
  constructor
  · intro hk
    rcases List.mem_map.1 hk with ⟨⟨a, b⟩, he, rfl⟩
    exact ⟨b, he⟩
  · rintro ⟨t, ht⟩
    exact List.mem_map.2 ⟨(name, t), ht, rfl⟩

theorem lookupQuery_of_holds (h : Heap) (s : SquareSql) (name q : String)
    (hq : s.holds h name q) : lookupQuery h s name = (q, none) := by
  have := (GoMap.get_eq_some_iff _ name q).2 hq
  simp [lookupQuery, this]

theorem lookupQuery_of_not_hasKey (h : Heap) (s : SquareSql) (name : String)
    (hq : ¬ s.hasKey h name) : lookupQuery h s name = ("", notFound name) := by
  have := (GoMap.get_eq_none_iff _ name).2 hq
  simp [lookupQuery, this]

/-! ## Lemmas on `Merge` -/

theorem lookup_others (k name : String) (es : List (String × String)) (hne : name ≠ k) :
    List.lookup name (GoMap.others k es) = List.lookup name es := by
  induction es with
  | nil => rfl
  | cons e t ih =>
    obtain ⟨a, b⟩ := e
    unfold GoMap.others at ih ⊢
    rw [List.filter_cons]
    by_cases ha : a = k
    · have hb : (name == a) = false := by simp [ha, hne]
      have hd : decide ((a, b).1 ≠ k) = false := by simp [ha]
      rw [hd, List.lookup_cons, hb]
      exact ih
    · have hd : decide ((a, b).1 ≠ k) = true := by simp [ha]
      rw [hd, if_pos rfl, List.lookup_cons, List.lookup_cons, ih]

theorem GoMap.get_set (m : GoMap) (k v name : String) :
    (m.set k v).get name = if name = k then some v else m.get name := by
  by_cases hk : name = k
  · subst hk; simp [GoMap.get, GoMap.set, List.lookup_cons]
  · have hb : (name == k) = false := by simp [hk]
    simp [GoMap.get, GoMap.set, List.lookup_cons, hb, hk, lookup_others k name m.entries hk]

theorem get_foldl_set (es : List (String × String)) (hn : (es.map Prod.fst).Nodup)
    (m : GoMap) (name : String) :
    (es.foldl (fun m1 kv => m1.set kv.1 kv.2) m).get name =
      (List.lookup name es).or (m.get name) := by
  induction es generalizing m with
  | nil => simp
  | cons e t ih =>
    obtain ⟨a, b⟩ := e
    simp only [List.map_cons, List.nodup_cons] at hn
    rw [List.foldl_cons, ih hn.2, GoMap.get_set]
    by_cases hk : name = a
    · subst hk
      have : List.lookup name t = none := (lookup_eq_none_iff t name).2 hn.1
      simp [this, List.lookup_cons]
    · have hb : (name == a) = false := by simp [hk]
      simp [hk, List.lookup_cons, hb]

theorem get_foldl_stores (h : Heap) (stores : List SquareSql) (m : GoMap) (name : String) :
    (stores.foldl
      (fun m0 s => (h.read s.queries).range.foldl (fun m1 kv => m1.set kv.1 kv.2) m0)
      m).get name =
      (stores.reverse.findSome? (fun s => s.valueOf h name)).or (m.get name) := by
  induction stores generalizing m with
  | nil => simp
  | cons s rest ih =>
    rw [List.foldl_cons, ih, GoMap.range, get_foldl_set _ (h.read s.queries).nodup]
    rw [List.reverse_cons, List.findSome?_append]
    have hfs : List.findSome? (fun s => s.valueOf h name) [s] =
        List.lookup name (h.read s.queries).entries := by
      simp only [List.findSome?, SquareSql.valueOf, GoMap.get]
      cases List.lookup name (h.read s.queries).entries <;> rfl
    rw [hfs]
    cases List.findSome? (fun s => s.valueOf h name) rest.reverse <;>
      cases List.lookup name (h.read s.queries).entries <;> rfl

theorem get_mergedMap (h : Heap) (stores : List SquareSql) (name : String) :
    (mergedMap h stores).get name =
      stores.reverse.findSome? (fun s => s.valueOf h name) := by
  unfold mergedMap
  rw [get_foldl_stores]
  simp [GoMap.get, GoMap.empty]

theorem modify_append_last (h : Heap) (m : GoMap) (f : GoMap → GoMap) :
    (h ++ [m]).modify f h.length = h ++ [f m] := by
  induction h with
  | nil => rfl
  | cons a t ih => simp [List.modify_succ_cons, ih]

theorem mergeInto_fresh (h : Heap) (m : GoMap) (kvs : List (String × String)) :
    mergeInto (h ++ [m]) h.length kvs =
      h ++ [kvs.foldl (fun m1 kv => m1.set kv.1 kv.2) m] := by
  induction kvs generalizing m with
  | nil => rfl
  | cons kv t ih =>
    simp only [mergeInto, List.foldl_cons, Heap.write] at ih ⊢
    rw [modify_append_last, ih]

theorem read_append_of_valid (h : Heap) (m : GoMap) (r : MapRef) (hv : h.valid r) :
    Heap.read (h ++ [m]) r = h.read r := by
  cases r with
  | none => rfl
  | some a =>
    exact List.getD_append h [m] GoMap.empty a hv

theorem mergeLoop_fresh (h : Heap) (stores : List SquareSql)
    (hv : ∀ s ∈ stores, h.valid s.queries) (m : GoMap) :
    mergeLoop (h ++ [m]) h.length (stores.map some) =
      some (h ++ [stores.foldl
        (fun m0 s => (h.read s.queries).range.foldl (fun m1 kv => m1.set kv.1 kv.2) m0) m]) := by
  induction stores generalizing m with
  | nil => rfl
  | cons s rest ih =>
    have hs : h.valid s.queries := hv s (List.mem_cons_self _ _)
    have hrest : ∀ t ∈ rest, h.valid t.queries := fun t ht => hv t (List.mem_cons_of_mem _ ht)
    simp only [List.map_cons, mergeLoop, SquareSql.QueryMap, List.foldl_cons]
    rw [read_append_of_valid h m s.queries hs, mergeInto_fresh, ih hrest]

theorem Merge_eq (h : Heap) (stores : List SquareSql)
    (hv : ∀ s ∈ stores, h.valid s.queries) :
    Merge h (stores.map some) =
      some (h ++ [mergedMap h stores], { queries := some h.length }) := by
  simp [Merge, Heap.alloc, mergeLoop_fresh h stores hv, mergedMap]

theorem read_merged (h : Heap) (m : GoMap) : Heap.read (h ++ [m]) (some h.length) = m := by
  simp [Heap.read, List.getD_append_right]

/-! ## Lookup and dispatch -/

/-- C1. When `name` is not a key of the store's map, each of the eight dispatch
operations returns a nil result together with the non-nil error produced by
`lookupQuery`, and leaves the executor and its call log as they were: no
executor method is invoked and the call number keeps its pre-call value. -/
theorem c1_missing_name_returns_lookup_error_without_call
    (h : Heap) (s : SquareSql) (name : String) (hmiss : ¬ s.hasKey h name)
    (ctx : Ctx) (args : List Arg) (w : World σ Ctx Arg)
    (p : Preparer σ Stmt) (pc : PreparerContext σ Ctx Stmt)
    (q : Queryer σ Arg Rows) (qc : QueryerContext σ Ctx Arg Rows)
    (r : QueryRower σ Arg Row) (rc : QueryRowerContext σ Ctx Arg Row)
    (e : Execer σ Arg Result) (ec : ExecerContext σ Ctx Arg Result) :
    (lookupQuery h s name).2 ≠ none ∧
    s.Prepare h p name w = ((none, (lookupQuery h s name).2), w) ∧
    s.PrepareContext h ctx pc name w = ((none, (lookupQuery h s name).2), w) ∧
    s.Query h q name args w = ((none, (lookupQuery h s name).2), w) ∧
    s.QueryContext h ctx qc name args w = ((none, (lookupQuery h s name).2), w) ∧
    s.QueryRow h r name args w = ((none, (lookupQuery h s name).2), w) ∧
    s.QueryRowContext h ctx rc name args w = ((none, (lookupQuery h s name).2), w) ∧
    s.Exec h e name args w = ((none, (lookupQuery h s name).2), w) ∧
    s.ExecContext h ctx ec name args w = ((none, (lookupQuery h s name).2), w) ∧
    (s.Prepare h p name w).2.callNumber = w.callNumber ∧
    (s.PrepareContext h ctx pc name w).2.callNumber = w.callNumber ∧
    (s.Query h q name args w).2.callNumber = w.callNumber ∧
    (s.QueryContext h ctx qc name args w).2.callNumber = w.callNumber ∧
    (s.QueryRow h r name args w).2.callNumber = w.callNumber ∧
    (s.QueryRowContext h ctx rc name args w).2.callNumber = w.callNumber ∧
    (s.Exec h e name args w).2.callNumber = w.callNumber ∧
    (s.ExecContext h ctx ec name args w).2.callNumber = w.callNumber := by
  have hl := lookupQuery_of_not_hasKey h s name hmiss
  simp [SquareSql.Prepare, SquareSql.PrepareContext, SquareSql.Query, SquareSql.QueryContext,
    SquareSql.QueryRow, SquareSql.QueryRowContext, SquareSql.Exec, SquareSql.ExecContext,
    hl, notFound]

/-- C2. When `name` is a key of the store's map with text `text`, each of the
eight dispatch operations invokes the executor's corresponding method exactly
once: the call log grows by exactly the one call that carries `text` as the
query string, the caller's argument list as given and (for the context
variants) the caller's context, the executor state is the one that single call
leaves, and the call number rises by exactly one. -/
theorem c2_present_name_invokes_executor_once
    (h : Heap) (s : SquareSql) (name text : String) (hq : s.holds h name text)
    (ctx : Ctx) (args : List Arg) (w : World σ Ctx Arg)
    (p : Preparer σ Stmt) (pc : PreparerContext σ Ctx Stmt)
    (q : Queryer σ Arg Rows) (qc : QueryerContext σ Ctx Arg Rows)
    (r : QueryRower σ Arg Row) (rc : QueryRowerContext σ Ctx Arg Row)
    (e : Execer σ Arg Result) (ec : ExecerContext σ Ctx Arg Result) :
    ((s.Prepare h p name w).2 =
        ⟨(p.Prepare text w.db).2, w.calls ++ [⟨.Prepare, none, text, []⟩]⟩ ∧
      (s.Prepare h p name w).2.callNumber = w.callNumber + 1) ∧
    ((s.PrepareContext h ctx pc name w).2 =
        ⟨(pc.PrepareContext ctx text w.db).2,
          w.calls ++ [⟨.PrepareContext, some ctx, text, []⟩]⟩ ∧
      (s.PrepareContext h ctx pc name w).2.callNumber = w.callNumber + 1) ∧
    ((s.Query h q name args w).2 =
        ⟨(q.Query text args w.db).2, w.calls ++ [⟨.Query, none, text, args⟩]⟩ ∧
      (s.Query h q name args w).2.callNumber = w.callNumber + 1) ∧
    ((s.QueryContext h ctx qc name args w).2 =
        ⟨(qc.QueryContext ctx text args w.db).2,
          w.calls ++ [⟨.QueryContext, some ctx, text, args⟩]⟩ ∧
      (s.QueryContext h ctx qc name args w).2.callNumber = w.callNumber + 1) ∧
    ((s.QueryRow h r name args w).2 =
        ⟨(r.QueryRow text args w.db).2, w.calls ++ [⟨.QueryRow, none, text, args⟩]⟩ ∧
      (s.QueryRow h r name args w).2.callNumber = w.callNumber + 1) ∧
    ((s.QueryRowContext h ctx rc name args w).2 =
        ⟨(rc.QueryRowContext ctx text args w.db).2,
          w.calls ++ [⟨.QueryRowContext, some ctx, text, args⟩]⟩ ∧
      (s.QueryRowContext h ctx rc name args w).2.callNumber = w.callNumber + 1) ∧
    ((s.Exec h e name args w).2 =
        ⟨(e.Exec text args w.db).2, w.calls ++ [⟨.Exec, none, text, args⟩]⟩ ∧
      (s.Exec h e name args w).2.callNumber = w.callNumber + 1) ∧
    ((s.ExecContext h ctx ec name args w).2 =
        ⟨(ec.ExecContext ctx text args w.db).2,
          w.calls ++ [⟨.ExecContext, some ctx, text, args⟩]⟩ ∧
      (s.ExecContext h ctx ec name args w).2.callNumber = w.callNumber + 1) := by
  have hl := lookupQuery_of_holds h s name text hq
  simp [SquareSql.Prepare, SquareSql.PrepareContext, SquareSql.Query, SquareSql.QueryContext,
    SquareSql.QueryRow, SquareSql.QueryRowContext, SquareSql.Exec, SquareSql.ExecContext,
    hl, invoke, World.callNumber]

/-- C3. When `name` is a key of the store's map with text `text`, each of
`Prepare`, `PrepareContext`, `Query`, `QueryContext`, `Exec` and `ExecContext`
returns exactly the (result, error) pair the executor's method returned for
the call on `text`: the result and the error are the executor's own values. -/
theorem c3_present_name_returns_executor_pair
    (h : Heap) (s : SquareSql) (name text : String) (hq : s.holds h name text)
    (ctx : Ctx) (args : List Arg) (w : World σ Ctx Arg)
    (p : Preparer σ Stmt) (pc : PreparerContext σ Ctx Stmt)
    (q : Queryer σ Arg Rows) (qc : QueryerContext σ Ctx Arg Rows)
    (e : Execer σ Arg Result) (ec : ExecerContext σ Ctx Arg Result) :
    (s.Prepare h p name w).1 = (p.Prepare text w.db).1 ∧
    (s.PrepareContext h ctx pc name w).1 = (pc.PrepareContext ctx text w.db).1 ∧
    (s.Query h q name args w).1 = (q.Query text args w.db).1 ∧
    (s.QueryContext h ctx qc name args w).1 = (qc.QueryContext ctx text args w.db).1 ∧
    (s.Exec h e name args w).1 = (e.Exec text args w.db).1 ∧
    (s.ExecContext h ctx ec name args w).1 = (ec.ExecContext ctx text args w.db).1 := by
  have hl := lookupQuery_of_holds h s name text hq
  simp [SquareSql.Prepare, SquareSql.PrepareContext, SquareSql.Query, SquareSql.QueryContext,
    SquareSql.Exec, SquareSql.ExecContext, hl, invoke]

/-- C4. `QueryRow` and `QueryRowContext` return a nil row and the non-nil
lookup error when `name` is not a key of the store's map; when `name` is a key
with text `text` they return exactly the row handle the executor returned for
the call on `text` (whatever it is, a nil handle included) together with a nil
error. Hence the returned error is non-nil if and only if `name` is absent. -/
theorem c4_query_row_error_iff_absent
    (h : Heap) (s : SquareSql) (name : String)
    (ctx : Ctx) (args : List Arg) (w : World σ Ctx Arg)
    (r : QueryRower σ Arg Row) (rc : QueryRowerContext σ Ctx Arg Row) :
    (¬ s.hasKey h name →
      (lookupQuery h s name).2 ≠ none ∧
      (s.QueryRow h r name args w).1 = (none, (lookupQuery h s name).2) ∧
      (s.QueryRowContext h ctx rc name args w).1 = (none, (lookupQuery h s name).2)) ∧
    (∀ text, s.holds h name text →
      (s.QueryRow h r name args w).1 = ((r.QueryRow text args w.db).1, none) ∧
      (s.QueryRowContext h ctx rc name args w).1 =
        ((rc.QueryRowContext ctx text args w.db).1, none)) ∧
    ((s.QueryRow h r name args w).1.2 ≠ none ↔ ¬ s.hasKey h name) ∧
    ((s.QueryRowContext h ctx rc name args w).1.2 ≠ none ↔ ¬ s.hasKey h name) := by
  have hpres : ∀ text, s.holds h name text →
      (s.QueryRow h r name args w).1 = ((r.QueryRow text args w.db).1, none) ∧
      (s.QueryRowContext h ctx rc name args w).1 =
        ((rc.QueryRowContext ctx text args w.db).1, none) := by
    intro text hq
    have hl := lookupQuery_of_holds h s name text hq
    simp [SquareSql.QueryRow, SquareSql.QueryRowContext, hl, invoke]
  have habs : ¬ s.hasKey h name →
      (lookupQuery h s name).2 ≠ none ∧
      (s.QueryRow h r name args w).1 = (none, (lookupQuery h s name).2) ∧
      (s.QueryRowContext h ctx rc name args w).1 = (none, (lookupQuery h s name).2) := by
    intro hmiss
    have hl := lookupQuery_of_not_hasKey h s name hmiss
    simp [SquareSql.QueryRow, SquareSql.QueryRowContext, hl, notFound]
  refine ⟨habs, hpres, ?_, ?_⟩
  · by_cases hk : s.hasKey h name
    · obtain ⟨text, ht⟩ := (hasKey_iff h s name).1 hk
      simp [(hpres text ht).1, hk]
    · have := habs hk
      simp [this.2.1, hk, this.1]
  · by_cases hk : s.hasKey h name
    · obtain ⟨text, ht⟩ := (hasKey_iff h s name).1 hk
      simp [(hpres text ht).2, hk]
    · have := habs hk
      simp [this.2.2, hk, this.1]

/-- C5. `Raw` is `lookupQuery`. It returns `(t, nil)` exactly when the store's
map has the entry `name ↦ t`; when `name` is not a key it returns the empty
string and the NotFound error whose message is
`dotsql: '<name>' could not be found` for the requested name. -/
theorem c5_raw_returns_text_or_not_found (h : Heap) (s : SquareSql) (name : String) :
    s.Raw h name = lookupQuery h s name ∧
    (∀ t, s.Raw h name = (t, none) ↔ s.holds h name t) ∧
    ((∃ t, s.holds h name t ∧ s.Raw h name = (t, none)) ∨
      (¬ s.hasKey h name ∧
        s.Raw h name = ("", some ("dotsql: '" ++ name ++ "' could not be found")))) := by
  refine ⟨rfl, ?_, ?_⟩
  · intro t
    constructor
    · intro hr
      by_cases hk : s.hasKey h name
      · obtain ⟨text, ht⟩ := (hasKey_iff h s name).1 hk
        have hl := lookupQuery_of_holds h s name text ht
        simp only [SquareSql.Raw, hl] at hr
        have : text = t := (Prod.mk.inj hr).1
        exact this ▸ ht
      · have hl := lookupQuery_of_not_hasKey h s name hk
        simp [SquareSql.Raw, hl, notFound] at hr
    · intro ht
      exact lookupQuery_of_holds h s name t ht
  · by_cases hk : s.hasKey h name
    · obtain ⟨text, ht⟩ := (hasKey_iff h s name).1 hk
      exact Or.inl ⟨text, ht, lookupQuery_of_holds h s name text ht⟩
    · exact Or.inr ⟨hk, lookupQuery_of_not_hasKey h s name hk⟩

/-! ## Merge -/

/-- C6. For stores whose maps are allocated in the heap, `Merge` returns a new
store; a name is a key of it if and only if it is a key of at least one input
store, and it holds `name ↦ v` exactly when `v` is the value held by the last
input store, in argument order, that has the key `name`. -/
theorem c6_merge_is_union_last_store_wins (h : Heap) (stores : List SquareSql)
    (hv : ∀ s ∈ stores, h.valid s.queries) :
    ∃ h1 r, Merge h (stores.map some) = some (h1, r) ∧
      ∀ name,
        (r.hasKey h1 name ↔ ∃ s ∈ stores, s.hasKey h name) ∧
        (∀ v, r.holds h1 name v ↔
          ∃ pre s post, stores = pre ++ s :: post ∧ s.holds h name v ∧
            ∀ t ∈ post, ¬ t.hasKey h name) := by
  refine ⟨_, _, Merge_eq h stores hv, ?_⟩
  intro name
  have hholds : ∀ v, SquareSql.holds (h ++ [mergedMap h stores]) { queries := some h.length }
      name v ↔ ∃ pre s post, stores = pre ++ s :: post ∧ s.holds h name v ∧
        ∀ t ∈ post, ¬ t.hasKey h name := by
    intro v
    unfold SquareSql.holds
    rw [read_merged, ← GoMap.get_eq_some_iff, get_mergedMap, List.findSome?_eq_some_iff]
    constructor
    · rintro ⟨l1, a, l2, hrev, ha, hl1⟩
      refine ⟨l2.reverse, a, l1.reverse, ?_, ?_, ?_⟩
      · have := congrArg List.reverse hrev
        simpa using this
      · exact (GoMap.get_eq_some_iff _ name v).1 ha
      · intro t ht
        have := hl1 t (List.mem_reverse.1 ht)
        exact (GoMap.get_eq_none_iff _ name).1 this
    · rintro ⟨pre, a, post, hst, ha, hpost⟩
      refine ⟨post.reverse, a, pre.reverse, ?_, ?_, ?_⟩
      · simp [hst]
      · exact (GoMap.get_eq_some_iff _ name v).2 ha
      · intro t ht
        exact (GoMap.get_eq_none_iff _ name).2 (hpost t (List.mem_reverse.1 ht))
  refine ⟨?_, hholds⟩
  rw [hasKey_iff]
  constructor
  · rintro ⟨v, hvv⟩
    obtain ⟨pre, a, post, hst, ha, -⟩ := (hholds v).1 hvv
    exact ⟨a, by simp [hst], (hasKey_iff h a name).2 ⟨v, ha⟩⟩
  · rintro ⟨a, hmem, hkey⟩
    obtain ⟨v, hav⟩ := (hasKey_iff h a name).1 hkey
    have hne : (mergedMap h stores).get name ≠ none := by
      rw [get_mergedMap]
      intro hnone
      have := List.findSome?_eq_none_iff.1 hnone a (List.mem_reverse.2 hmem)
      have hsome := (GoMap.get_eq_some_iff _ name v).2 hav
      simp [SquareSql.valueOf, hsome] at this
    obtain ⟨v1, hv1⟩ := Option.ne_none_iff_exists'.1 hne
    refine ⟨v1, ?_⟩
    unfold SquareSql.holds
    rw [read_merged]
    exact (GoMap.get_eq_some_iff _ name v1).1 hv1

/-- C7. For stores whose maps are allocated in the heap, `Merge` returns, and
in the heap it leaves every map object that existed before the call is what it
was: the map of every input store has exactly its former entries, also when
inputs share a name. The only change is the newly allocated map object. -/
theorem c7_merge_leaves_input_stores_unmodified (h : Heap) (stores : List SquareSql)
    (hv : ∀ s ∈ stores, h.valid s.queries) :
    ∃ h1 r, Merge h (stores.map some) = some (h1, r) ∧
      (∀ s ∈ stores, h1.read s.queries = h.read s.queries) ∧
      (∀ a, a < h.length → h1.read (some a) = h.read (some a)) ∧
      h1.take h.length = h := by
  refine ⟨_, _, Merge_eq h stores hv, ?_, ?_, ?_⟩
  · intro s hs
    exact read_append_of_valid h _ s.queries (hv s hs)
  · intro a ha
    exact read_append_of_valid h _ (some a) ha
  · simp

/-! ## The theorems at the inputs of the repository's tests -/

/-- C1 at `TestPrepare`/`TestQueryRow`, "not found": `insert` is not a key of
`square`; `Prepare` and `QueryRow` return nil and the lookup error, and the
mock stays fresh. -/
theorem c1_missing_name_witness :
    ¬ square.hasKey testHeap "insert" ∧
    square.Prepare testHeap (PreparerMock (fun _ => (some (), none))) "insert" freshMock =
      ((none, (lookupQuery testHeap square "insert").2), freshMock) ∧
    square.QueryRow testHeap (QueryRowerMock (fun _ _ => some ())) "insert" ["1"] freshMock =
      ((none, (lookupQuery testHeap square "insert").2), freshMock) ∧
    (lookupQuery testHeap square "insert").2 = some "dotsql: 'insert' could not be found" :=
  have hc := c1_missing_name_returns_lookup_error_without_call testHeap square "insert"
    (by decide) () ["1"] freshMock
    (PreparerMock (fun _ => (some (), none)))
    (PreparerContextMock (fun _ _ => (some (), none)))
    (QueryerMock (fun _ _ => (some (), none)))
    (QueryerContextMock (fun _ _ _ => (some (), none)))
    (QueryRowerMock (fun _ _ => some ()))
    (QueryRowerContextMock (fun _ _ _ => some ()))
    (ExecerMock (fun _ _ => (some (), none)))
    (ExecerContextMock (fun _ _ _ => (some (), none)))
  ⟨by decide, hc.2.1, hc.2.2.2.2.2.1, by decide⟩

/-- C2 at `TestQuery`, "successful": `select` is a key of `square`; `Query`
logs the one call with the stored text and the argument `"1"`, and the call
number goes from 0 to 1. -/
theorem c2_present_name_witness :
    square.holds testHeap "select" "SELECT * from products" ∧
    (square.Query testHeap (QueryerMock (fun _ _ => (some (), none))) "select" ["1"]
        freshMock).2.calls =
      [] ++ [⟨.Query, none, "SELECT * from products", ["1"]⟩] ∧
    (square.Query testHeap (QueryerMock (fun _ _ => (some (), none))) "select" ["1"]
        freshMock).2.callNumber = 0 + 1 :=
  have hc := c2_present_name_invokes_executor_once testHeap square "select"
    "SELECT * from products" (by decide) () ["1"] freshMock
    (PreparerMock (fun _ => (some (), none)))
    (PreparerContextMock (fun _ _ => (some (), none)))
    (QueryerMock (fun _ _ => (some (), none)))
    (QueryerContextMock (fun _ _ _ => (some (), none)))
    (QueryRowerMock (fun _ _ => some ()))
    (QueryRowerContextMock (fun _ _ _ => some ()))
    (ExecerMock (fun _ _ => (some (), none)))
    (ExecerContextMock (fun _ _ _ => (some (), none)))
  ⟨by decide, congrArg World.calls hc.2.2.1.1, hc.2.2.1.2⟩

/-- C3 at `TestExec`, "error returned by db": `Exec` on `select` returns the
mock's own pair, a nil result and the error `critical error`. -/
theorem c3_present_name_witness :
    square.holds testHeap "select" "SELECT * from products" ∧
    (square.Exec testHeap
        (ExecerMock (fun _ _ => ((none : Option Unit), some "critical error")))
        "select" ["1"] freshMock).1 = (none, some "critical error") :=
  ⟨by decide,
    (c3_present_name_returns_executor_pair testHeap square "select"
      "SELECT * from products" (by decide) () ["1"] freshMock
      (PreparerMock (fun _ => (some (), none)))
      (PreparerContextMock (fun _ _ => (some (), none)))
      (QueryerMock (fun _ _ => (some (), none)))
      (QueryerContextMock (fun _ _ _ => (some (), none)))
      (ExecerMock (fun _ _ => ((none : Option Unit), some "critical error")))
      (ExecerContextMock (fun _ _ _ => (some (), none)))).2.2.2.2.1⟩

/-- C4 at `TestQueryRow`: on the absent name `insert` the error is non-nil; on
`select` a mock returning a nil row gives the nil row and a nil error. -/
theorem c4_query_row_witness :
    ¬ square.hasKey testHeap "insert" ∧
    square.holds testHeap "select" "SELECT * from products" ∧
    (square.QueryRow testHeap (QueryRowerMock (fun _ _ => (none : Option Unit))) "insert" ["1"]
        freshMock).1.2 ≠ none ∧
    (square.QueryRow testHeap (QueryRowerMock (fun _ _ => (none : Option Unit))) "select" ["1"]
        freshMock).1 = (none, none) :=
  ⟨by decide, by decide,
    (c4_query_row_error_iff_absent testHeap square "insert" () ["1"] freshMock
      (QueryRowerMock (fun _ _ => (none : Option Unit)))
      (QueryRowerContextMock (fun _ _ _ => (none : Option Unit)))).2.2.1.2 (by decide),
    ((c4_query_row_error_iff_absent testHeap square "select" () ["1"] freshMock
      (QueryRowerMock (fun _ _ => (none : Option Unit)))
      (QueryRowerContextMock (fun _ _ _ => (none : Option Unit)))).2.1
        "SELECT * from products" (by decide)).1⟩

/-- C6 and the test `TestMergeHaveBothQueries`, with a third store sharing
`query-a`: the merged store has `query-b` from the second store and `query-a`
with the text of the third, the last store that has the key. -/
theorem c6_merge_witness :
    (∀ s ∈ mergeStores, mergeHeap.valid s.queries) ∧
    ∃ h1 r, Merge mergeHeap (mergeStores.map some) = some (h1, r) ∧
      r.holds h1 "query-b" "SELECT * FROM b" ∧ r.holds h1 "query-a" "SELECT 1" ∧
      ¬ r.hasKey h1 "query-d" :=
  have hv : ∀ s ∈ mergeStores, mergeHeap.valid s.queries := by decide
  match c6_merge_is_union_last_store_wins mergeHeap mergeStores hv with
  | ⟨h1, r, hm, hall⟩ =>
    ⟨hv, h1, r, hm,
      ((hall "query-b").2 "SELECT * FROM b").2
        ⟨[{ queries := some 0 }], { queries := some 1 }, [{ queries := some 2 }],
          rfl, by decide, by decide⟩,
      ((hall "query-a").2 "SELECT 1").2
        ⟨[{ queries := some 0 }, { queries := some 1 }], { queries := some 2 }, [],
          rfl, by decide, by decide⟩,
      fun hk => by
        obtain ⟨s, hs, hsk⟩ := (hall "query-d").1.1 hk
        revert s
        decide⟩

/-- C7 at the stores of `mergeHeap`: after `Merge` the three input maps read
as before. -/
theorem c7_merge_witness :
    (∀ s ∈ mergeStores, mergeHeap.valid s.queries) ∧
    ∃ h1 r, Merge mergeHeap (mergeStores.map some) = some (h1, r) ∧
      (∀ s ∈ mergeStores, h1.read s.queries = mergeHeap.read s.queries) :=
  have hv : ∀ s ∈ mergeStores, mergeHeap.valid s.queries := by decide
  match c7_merge_leaves_input_stores_unmodified mergeHeap mergeStores hv with
  | ⟨h1, r, hm, hin, _, _⟩ => ⟨hv, h1, r, hm, hin⟩

/-! ## The scanner: `getTag` -/

theorem stripLit_eq_some (p cs r : List Char) : stripLit p cs = some r ↔ cs = p ++ r := by
  induction p generalizing cs with
  | nil => simp [stripLit, eq_comm]
  | cons a t ih =>
    cases cs with
    | nil => simp [stripLit]
    | cons c cs1 =>
      by_cases hac : a = c
      · subst hac; simp [stripLit, ih]
      · have hca : ¬ c = a := fun hh => hac hh.symm
        simp [stripLit, hac, hca]

theorem trim_eq_nil_of_blank (cs : List Char) (hb : cs.all isSpace = true) : trim cs = [] := by
  have hall := List.all_eq_true.1 hb
  have : trimLeft cs = [] := List.dropWhile_eq_nil_iff.2 hall
  simp [trim, this, trimRight]

theorem trim_append_blank (ws cs : List Char) (hb : ws.all isSpace = true) :
    trim (ws ++ cs) = trim cs := by
  unfold trim trimLeft
  rw [List.dropWhile_append_of_pos (List.all_eq_true.1 hb)]

theorem tagName_of_shape (line : String) (ws1 ws2 name : List Char)
    (h1 : ws1.all isSpace = true) (h2 : ws2.all isSpace = true)
    (hshape : trim line.data = "--".data ++ ws1 ++ "name:".data ++ ws2 ++ name) :
    tagName line = some (String.mk (trim name)) := by
  have hrest : trim line.data = "--".data ++ (ws1 ++ ("name:".data ++ (ws2 ++ name))) := by
    rw [hshape]; simp [List.append_assoc]
  have hs1 := (stripLit_eq_some "--".data (trim line.data) _).2 hrest
  have hleft : trimLeft (ws1 ++ ("name:".data ++ (ws2 ++ name))) =
      "name:".data ++ (ws2 ++ name) := by
    unfold trimLeft
    rw [List.dropWhile_append_of_pos (List.all_eq_true.1 h1)]
    rfl
  have hs2 := (stripLit_eq_some "name:".data ("name:".data ++ (ws2 ++ name)) _).2 rfl
  unfold tagName
  rw [hs1]
  simp only [hleft, hs2, trim_append_blank ws2 name h2]

theorem shape_of_tagName (line t : String) (ht : tagName line = some t) :
    ∃ ws1 name : List Char, ws1.all isSpace = true ∧ t = String.mk (trim name) ∧
      trim line.data = "--".data ++ ws1 ++ "name:".data ++ name := by
  unfold tagName at ht
  cases h1 : stripLit "--".data (trim line.data) with
  | none => simp [h1] at ht
  | some r1 =>
    cases h2 : stripLit "name:".data (trimLeft r1) with
    | none => simp [h1, h2] at ht
    | some r2 =>
      simp only [h1, h2, Option.some.injEq] at ht
      have e1 := (stripLit_eq_some _ _ _).1 h1
      have e2 := (stripLit_eq_some _ _ _).1 h2
      refine ⟨r1.takeWhile isSpace, r2, ?_, ht.symm, ?_⟩
      · exact List.all_eq_true.2 (fun c hc => List.mem_takeWhile_imp hc)
      · have hsplit := List.takeWhile_append_dropWhile isSpace r1
        unfold trimLeft at e2
        rw [e1, List.append_assoc, List.append_assoc, ← e2, hsplit]

/-- C9. `getTag` returns the whitespace-trimmed name when the line, after
trimming surrounding whitespace, consists of `--`, optional whitespace, the
literal `name:`, optional whitespace and a non-blank name, and it returns the
empty string for every other line; so for a non-comment line, for a comment
without `name:` and for a `name:` comment with a blank name. In particular
`getTag "  --  name:  save-product " = "save-product"`. -/
theorem c9_getTag_returns_trimmed_name_or_empty (line : String) :
    (∀ name, matchesTag line name → getTag line = trimSpace name) ∧
    ((¬ ∃ name, matchesTag line name) → getTag line = "") ∧
    getTag "SELECT all" = "" ∧ getTag "-- no name" = "" ∧ getTag "-- name:  " = "" ∧
    getTag "-- name: find-products-by-name" = "find-products-by-name" ∧
    getTag "  --  name:  save-product " = "save-product" := by
  refine ⟨?_, ?_, by decide, by decide, by decide, by decide, by decide⟩
  · rintro name ⟨ws1, ws2, h1, h2, -, hshape⟩
    have hdata : trim line.data =
        "--".data ++ ws1.data ++ "name:".data ++ ws2.data ++ name.data := by
      have := congrArg String.data hshape
      simpa [trimSpace, String.data_append] using this
    simp [getTag, trimSpace, tagName_of_shape line ws1.data ws2.data name.data h1 h2 hdata]
  · intro hno
    cases ht : tagName line with
    | none => simp [getTag, ht]
    | some t =>
      obtain ⟨ws1, name, hws1, htn, hshape⟩ := shape_of_tagName line t ht
      by_cases hblank : name.all isSpace = true
      · simp [getTag, ht, htn, trim_eq_nil_of_blank name hblank]
      · exfalso
        refine hno ⟨String.mk name, String.mk ws1, "", hws1, rfl, ?_, ?_⟩
        · simpa [isBlank] using hblank
        · apply String.ext
          simp [trimSpace, String.data_append, hshape]

/-- C9 at the lines of `TestGetTag`: the line `  --  name:  save-product ` has
the tag-line shape with the name `save-product`, and `SELECT all` has it for
no name. -/
theorem c9_getTag_witness :
    matchesTag "  --  name:  save-product " "save-product" ∧
    getTag "  --  name:  save-product " = trimSpace "save-product" ∧
    (¬ ∃ name, matchesTag "SELECT all" name) ∧ getTag "SELECT all" = "" :=
  have hm : matchesTag "  --  name:  save-product " "save-product" :=
    ⟨"  ", "  ", by decide, by decide, by decide, by decide⟩
  have hn : ¬ ∃ name, matchesTag "SELECT all" name := by
    rintro ⟨name, ws1, ws2, -, -, -, hshape⟩
    have hd := congrArg String.data hshape
    have h0 := congrArg (fun l => l.head?) hd
    simp [trimSpace, String.data_append] at h0
    revert h0
    decide
  ⟨hm, (c9_getTag_returns_trimmed_name_or_empty "  --  name:  save-product ").1
      "save-product" hm,
    hn, (c9_getTag_returns_trimmed_name_or_empty "SELECT all").2.1 hn⟩

/-! ## The scanner: `Run` -/

theorem commit_foldl_step (lines : List String) (s : Scanner) :
    (lines.foldl Scanner.step s).commit =
      (groups lines).foldl (fun m g => store m g.1 (bodyOf g.2))
        (store s.queries s.current
          (s.body ++ bodyOf (lines.takeWhile (fun l => !isTagLine l)))) := by
  induction lines generalizing s with
  | nil => simp [Scanner.commit, groups, bodyOf]
  | cons l rest ih =>
    rw [List.foldl_cons, ih]
    by_cases ht : isTagLine l = true
    · simp [Scanner.step, groups, ht, List.takeWhile_cons, Scanner.commit, bodyOf]
    · have hf : isTagLine l = false := by simpa using ht
      cases hc : s.current with
      | none => simp [Scanner.step, groups, hf, hc, store]
      | some tag =>
        by_cases hblank : trimSpace l = ""
        · simp [Scanner.step, groups, hf, hc, List.takeWhile_cons, bodyOf, hblank]
        · simp [Scanner.step, groups, hf, hc, List.takeWhile_cons, bodyOf, hblank,
            List.append_assoc]

theorem Run_eq_groups (lines : List String) :
    Scanner.Run lines =
      (groups lines).foldl (fun m g => store m g.1 (bodyOf g.2)) GoMap.empty := by
  unfold Scanner.Run
  rw [commit_foldl_step]
  simp [Scanner.init, store]

theorem get_store (m : GoMap) (g : Option String × List String) (name : String) :
    (store m g.1 (bodyOf g.2)).get name = (valueIn name g).or (m.get name) := by
  obtain ⟨c, b⟩ := g
  cases c with
  | none => simp [store, valueIn]
  | some tag =>
    by_cases hb : bodyOf b = []
    · simp [store, valueIn, hb]
    · by_cases hn : name = tag
      · simp [store, valueIn, hb, GoMap.get_set, hn]
      · have hn1 : ¬ tag = name := fun hh => hn hh.symm
        simp [store, valueIn, hb, GoMap.get_set, hn, hn1]

theorem get_foldl_groups (gs : List (Option String × List String)) (m : GoMap)
    (name : String) :
    (gs.foldl (fun m0 g => store m0 g.1 (bodyOf g.2)) m).get name =
      (gs.reverse.findSome? (valueIn name)).or (m.get name) := by
  induction gs generalizing m with
  | nil => simp
  | cons g rest ih =>
    rw [List.foldl_cons, ih, get_store, List.reverse_cons, List.findSome?_append]
    have hfs : List.findSome? (valueIn name) [g] = valueIn name g := by
      simp only [List.findSome?]
      cases valueIn name g <;> rfl
    rw [hfs]
    cases List.findSome? (valueIn name) rest.reverse <;> cases valueIn name g <;> rfl

theorem get_Run (lines : List String) (name : String) :
    (Scanner.Run lines).get name = (groups lines).reverse.findSome? (valueIn name) := by
  rw [Run_eq_groups, get_foldl_groups]
  simp [GoMap.get, GoMap.empty]

theorem valueIn_eq_some (name v : String) (g : Option String × List String) :
    valueIn name g = some v ↔
      g.1 = some name ∧ bodyOf g.2 ≠ [] ∧ v = joinLines (bodyOf g.2) := by
  unfold valueIn
  by_cases h : g.1 = some name ∧ bodyOf g.2 ≠ []
  · rw [if_pos h]
    constructor
    · intro hv; exact ⟨h.1, h.2, (Option.some.inj hv).symm⟩
    · rintro ⟨-, -, hv⟩; rw [hv]
  · rw [if_neg h]
    constructor
    · intro hv; cases hv
    · rintro ⟨h1, h2, -⟩; exact absurd ⟨h1, h2⟩ h

theorem valueIn_eq_none (name : String) (g : Option String × List String) :
    valueIn name g = none ↔ (g.1 = some name → bodyOf g.2 = []) := by
  unfold valueIn
  by_cases h : g.1 = some name ∧ bodyOf g.2 ≠ []
  · rw [if_pos h]
    constructor
    · intro hv; cases hv
    · intro hi; exact absurd (hi h.1) h.2
  · rw [if_neg h]
    constructor
    · intro _ h1
      by_contra h2
      exact h ⟨h1, h2⟩
    · intro _; rfl

theorem holds_Run_iff (lines : List String) (name v : String) :
    (name, v) ∈ (Scanner.Run lines).entries ↔
      ∃ pre body post, groups lines = pre ++ (some name, body) :: post ∧
        bodyOf body ≠ [] ∧ v = joinLines (bodyOf body) ∧
        ∀ g ∈ post, g.1 = some name → bodyOf g.2 = [] := by
  rw [← GoMap.get_eq_some_iff, get_Run, List.findSome?_eq_some_iff]
  constructor
  · rintro ⟨l1, g, l2, hrev, hg, hl1⟩
    obtain ⟨c, body⟩ := g
    obtain ⟨hc, hb, hv⟩ := (valueIn_eq_some name v (c, body)).1 hg
    simp only at hc hb hv
    subst hc
    refine ⟨l2.reverse, body, l1.reverse, ?_, hb, hv, ?_⟩
    · have := congrArg List.reverse hrev
      simpa using this
    · intro g1 hg1
      exact (valueIn_eq_none name g1).1 (hl1 g1 (List.mem_reverse.1 hg1))
  · rintro ⟨pre, body, post, hgr, hb, hv, hpost⟩
    refine ⟨post.reverse, (some name, body), pre.reverse, ?_, ?_, ?_⟩
    · simp [hgr]
    · exact (valueIn_eq_some name v _).2 ⟨rfl, hb, hv⟩
    · intro g1 hg1
      exact (valueIn_eq_none name g1).2 (hpost g1 (List.mem_reverse.1 hg1))

theorem hasKey_Run_iff (lines : List String) (name : String) :
    name ∈ (Scanner.Run lines).entries.map Prod.fst ↔
      ∃ body, (some name, body) ∈ groups lines ∧ bodyOf body ≠ [] := by
  constructor
  · intro hk
    rcases List.mem_map.1 hk with ⟨⟨a, v⟩, he, rfl⟩
    obtain ⟨pre, body, post, hgr, hb, -, -⟩ := (holds_Run_iff lines a v).1 he
    exact ⟨body, by simp [hgr], hb⟩
  · rintro ⟨body, hmem, hb⟩
    have hne : (Scanner.Run lines).get name ≠ none := by
      rw [get_Run]
      intro hnone
      have := List.findSome?_eq_none_iff.1 hnone _ (List.mem_reverse.2 hmem)
      exact hb ((valueIn_eq_none name _).1 this rfl)
    obtain ⟨v, hv⟩ := Option.ne_none_iff_exists'.1 hne
    exact List.mem_map.2 ⟨(name, v), (GoMap.get_eq_some_iff _ name v).1 hv, rfl⟩

theorem mem_groups_iff (lines : List String) (g : Option String × List String) :
    g ∈ groups lines ↔
      ∃ pre line rest, lines = pre ++ line :: rest ∧ isTagLine line = true ∧
        g = (activeTag line, rest.takeWhile (fun l => !isTagLine l)) := by
  induction lines with
  | nil => simp [groups]
  | cons l t ih =>
    by_cases ht : isTagLine l = true
    · simp only [groups, ht, if_true, List.mem_cons, ih]
      constructor
      · rintro (hg | ⟨pre, line, rest, hl, hline, hg⟩)
        · exact ⟨[], l, t, rfl, ht, hg⟩
        · exact ⟨l :: pre, line, rest, by simp [hl], hline, hg⟩
      · rintro ⟨pre, line, rest, hl, hline, hg⟩
        cases pre with
        | nil =>
          simp only [List.nil_append, List.cons.injEq] at hl
          obtain ⟨h1, h2⟩ := hl
          subst h1; subst h2
          exact Or.inl hg
        | cons p pre1 =>
          simp only [List.cons_append, List.cons.injEq] at hl
          exact Or.inr ⟨pre1, line, rest, hl.2, hline, hg⟩
    · have hf : isTagLine l = false := by simpa using ht
      simp only [groups, hf, Bool.false_eq_true, if_false, ih]
      constructor
      · rintro ⟨pre, line, rest, hl, hline, hg⟩
        exact ⟨l :: pre, line, rest, by simp [hl], hline, hg⟩
      · rintro ⟨pre, line, rest, hl, hline, hg⟩
        cases pre with
        | nil =>
          simp only [List.nil_append, List.cons.injEq] at hl
          obtain ⟨h1, h2⟩ := hl
          subst h1
          rw [hf] at hline
          cases hline
        | cons p pre1 =>
          simp only [List.cons_append, List.cons.injEq] at hl
          exact ⟨pre1, line, rest, hl.2, hline, hg⟩

theorem getTag_of_not_tagLine (l : String) (h : isTagLine l = false) : getTag l = "" := by
  unfold isTagLine at h
  unfold getTag
  cases ht : tagName l with
  | none => rfl
  | some t => simp [ht] at h

theorem activeTag_ne_empty (l : String) : activeTag l ≠ some "" := by
  unfold activeTag
  by_cases h : getTag l = ""
  · simp [h]
  · simp only [if_neg h]
    intro hh
    exact h (Option.some.inj hh)

theorem step_idle (s : Scanner) (l : String) (hc : s.current = none) (hb : s.body = [])
    (hl : getTag l = "") : s.step l = s := by
  obtain ⟨c, b, q⟩ := s
  simp only at hc hb
  subst hc; subst hb
  by_cases ht : isTagLine l = true
  · simp [Scanner.step, ht, activeTag, hl, Scanner.commit, store]
  · have hf : isTagLine l = false := by simpa using ht
    simp [Scanner.step, hf]

theorem foldl_step_idle (s : Scanner) (ls : List String) (hc : s.current = none)
    (hb : s.body = []) (hl : ∀ l ∈ ls, getTag l = "") : ls.foldl Scanner.step s = s := by
  induction ls with
  | nil => rfl
  | cons l t ih =>
    rw [List.foldl_cons, step_idle s l hc hb (hl l (List.mem_cons_self _ _))]
    exact ih (fun x hx => hl x (List.mem_cons_of_mem _ hx))

/-- C12. A tag line with an empty or blank name creates no entry and clears the
active tag: the lines between it and the next valid tag line are dropped (the
result is the same without them), they do not extend the body of the tag that
was active before (up to the end of input the result is that of the lines
before the blank-name tag line), and no entry has the empty name. -/
theorem c12_blank_name_tag_line_clears_active_tag (pre mid rest : List String) (b : String)
    (hb : isTagLine b = true) (hn : getTag b = "") (hmid : ∀ l ∈ mid, getTag l = "") :
    Scanner.Run (pre ++ [b] ++ mid ++ rest) = Scanner.Run (pre ++ [b] ++ rest) ∧
    Scanner.Run (pre ++ [b] ++ mid) = Scanner.Run pre ∧
    Scanner.Run (pre ++ [b]) = Scanner.Run pre ∧
    ((pre ++ [b] ++ mid).foldl Scanner.step Scanner.init).current = none ∧
    ((pre ++ [b] ++ mid).foldl Scanner.step Scanner.init).body = [] ∧
    (∀ v, ("", v) ∉ (Scanner.Run (pre ++ [b] ++ mid ++ rest)).entries) := by
  have hstep : ∀ s : Scanner, s.step b = { current := none, body := [], queries := s.commit } := by
    intro s
    simp [Scanner.step, hb, activeTag, hn]
  have hfold : ∀ ls : List String, (∀ l ∈ ls, getTag l = "") →
      (pre ++ [b] ++ ls).foldl Scanner.step Scanner.init =
        { current := none, body := [], queries := Scanner.Run pre } := by
    intro ls hls
    rw [List.foldl_append, List.foldl_append, List.foldl_cons, List.foldl_nil, hstep,
      foldl_step_idle _ ls rfl rfl hls]
    rfl
  have hmid0 := hfold mid hmid
  have hnil := hfold [] (fun l hl => by cases hl)
  refine ⟨?_, ?_, ?_, ?_, ?_, ?_⟩
  · unfold Scanner.Run
    have hb0 := hnil
    rw [List.append_nil] at hb0
    rw [List.foldl_append, hmid0, List.foldl_append _ _ (pre ++ [b]) rest, hb0]
  · unfold Scanner.Run at hmid0 ⊢
    rw [hmid0]
    rfl
  · have := hnil
    rw [List.append_nil] at this
    unfold Scanner.Run at this ⊢
    rw [this]
    rfl
  · rw [hmid0]
  · rw [hmid0]
  · intro v hv
    have hk : "" ∈ (Scanner.Run (pre ++ [b] ++ mid ++ rest)).entries.map Prod.fst :=
      List.mem_map.2 ⟨("", v), hv, rfl⟩
    obtain ⟨body, hg, -⟩ := (hasKey_Run_iff _ "").1 hk
    obtain ⟨p, line, r, -, -, hgeq⟩ := (mem_groups_iff _ _).1 hg
    exact activeTag_ne_empty line (congrArg Prod.fst hgeq).symm

/-- C12 at a concrete input: after `all-products` and its body line, a tag line
with a blank name and a line after it; the result is that of the first two
lines alone. -/
theorem c12_blank_name_witness :
    isTagLine "-- name:  " = true ∧ getTag "-- name:  " = "" ∧
    Scanner.Run (["-- name: all-products", "SELECT 1"] ++ ["-- name:  "] ++ ["SELECT 2"]) =
      Scanner.Run ["-- name: all-products", "SELECT 1"] ∧
    (Scanner.Run ["-- name: all-products", "SELECT 1"]).get "all-products" = some "SELECT 1" :=
  ⟨by decide, by decide,
    (c12_blank_name_tag_line_clears_active_tag ["-- name: all-products", "SELECT 1"]
      ["SELECT 2"] [] "-- name:  " (by decide) (by decide) (by decide)).2.1,
    by decide⟩

/-- C13. The lines that precede the first valid tag line are discarded:
prepending lines without a valid tag (non-tag lines, and tag lines with a
blank name) to an input does not change the resulting map, and an input
without a valid tag line yields the empty map. -/
theorem c13_lines_before_first_valid_tag_are_discarded (junk lines : List String)
    (hj : ∀ l ∈ junk, getTag l = "") :
    Scanner.Run (junk ++ lines) = Scanner.Run lines ∧
    (Scanner.Run junk).entries = [] ∧
    (∀ l, isTagLine l = false → getTag l = "") := by
  have hfold := foldl_step_idle Scanner.init junk rfl rfl hj
  refine ⟨?_, ?_, getTag_of_not_tagLine⟩
  · unfold Scanner.Run
    rw [List.foldl_append, hfold]
  · unfold Scanner.Run
    rw [hfold]
    rfl

/-- C13 at the head of the input of `TestRun`: the empty first line, and a
comment line put before it, change nothing; alone they give the empty map. -/
theorem c13_leading_lines_witness :
    (∀ l ∈ ["-- products", ""], getTag l = "") ∧
    Scanner.Run (["-- products", ""] ++ testRunLines.tail) = Scanner.Run testRunLines.tail ∧
    (Scanner.Run ["-- products", ""]).entries = [] :=
  have hc := c13_lines_before_first_valid_tag_are_discarded ["-- products", ""]
    testRunLines.tail (by decide)
  ⟨by decide, hc.1, hc.2.1⟩

/-! ## Loading, `QueryMap` and the frame of the read operations -/

theorem Raw_eq_iff_holds (h : Heap) (s : SquareSql) (name t : String) :
    s.Raw h name = (t, none) ↔ s.holds h name t := by
  constructor
  · intro hr
    by_cases hk : s.hasKey h name
    · obtain ⟨text, ht⟩ := (hasKey_iff h s name).1 hk
      have hl := lookupQuery_of_holds h s name text ht
      simp only [SquareSql.Raw, hl] at hr
      have : text = t := (Prod.mk.inj hr).1
      exact this ▸ ht
    · have hl := lookupQuery_of_not_hasKey h s name hk
      simp [SquareSql.Raw, hl, notFound] at hr
  · intro ht
    exact lookupQuery_of_holds h s name t ht

theorem Raw_error_iff_not_hasKey (h : Heap) (s : SquareSql) (name : String) :
    (s.Raw h name).2 ≠ none ↔ ¬ s.hasKey h name := by
  by_cases hk : s.hasKey h name
  · obtain ⟨text, ht⟩ := (hasKey_iff h s name).1 hk
    simp [SquareSql.Raw, lookupQuery_of_holds h s name text ht, hk]
  · simp [SquareSql.Raw, lookupQuery_of_not_hasKey h s name hk, hk, notFound]

/-- C14. `Load` and `LoadFromString` return a nil error and a pointer to a store
whose map is exactly the map `Scanner.Run` produces for the lines of the text
(the lines the `bufio` scanner delivers); so `Raw` on the loaded store returns
`Run`'s entry for a present name and NotFound for any other name. For the
input `-- name: all-products`, newline, `SELECT * from products`,
`Raw("all-products")` is `SELECT * from products` and `Raw("missing")` fails
with NotFound. -/
theorem c14_load_returns_store_of_run_map (h : Heap) (text : String) :
    (Load h text).2.2 = none ∧
    LoadFromString h text = Load h text ∧
    (∃ s, (Load h text).2.1 = some s ∧
      (Load h text).1.read s.queries = Scanner.Run (scanLines text) ∧
      (∀ a, a < h.length → (Load h text).1.read (some a) = h.read (some a)) ∧
      (∀ name t, s.Raw (Load h text).1 name = (t, none) ↔
        (name, t) ∈ (Scanner.Run (scanLines text)).entries) ∧
      (∀ name, name ∉ (Scanner.Run (scanLines text)).entries.map Prod.fst →
        s.Raw (Load h text).1 name = ("", notFound name))) ∧
    (∃ s, (LoadFromString h scenarioText).2.1 = some s ∧
      s.Raw (LoadFromString h scenarioText).1 "all-products" =
        ("SELECT * from products", none) ∧
      s.Raw (LoadFromString h scenarioText).1 "missing" =
        ("", some "dotsql: 'missing' could not be found")) := by
  have hread : ∀ t : String,
      Heap.read (Load h t).1 (some h.length) = Scanner.Run (scanLines t) := by
    intro t
    exact read_merged h _
  refine ⟨rfl, rfl, ⟨{ queries := some h.length }, rfl, hread text, ?_, ?_, ?_⟩,
    ⟨{ queries := some h.length }, rfl, ?_, ?_⟩⟩
  · intro a ha
    exact read_append_of_valid h _ (some a) ha
  · intro name t
    rw [Raw_eq_iff_holds]
    unfold SquareSql.holds
    rw [hread]
  · intro name hk
    apply lookupQuery_of_not_hasKey
    unfold SquareSql.hasKey
    rw [hread]
    exact hk
  · apply lookupQuery_of_holds
    unfold SquareSql.holds
    show ("all-products", "SELECT * from products") ∈
      (Heap.read (Load h scenarioText).1 (some h.length)).entries
    rw [hread]
    decide
  · have hmiss : ¬ SquareSql.hasKey (LoadFromString h scenarioText).1
        { queries := some h.length } "missing" := by
      unfold SquareSql.hasKey
      show "missing" ∉
        (Heap.read (Load h scenarioText).1 (some h.length)).entries.map Prod.fst
      rw [hread]
      decide
    exact lookupQuery_of_not_hasKey _ _ _ hmiss

/-- C15. `QueryMap` returns the store's map, the full name-to-text mapping, and
it agrees with lookup: `Raw(name)` returns `(t, nil)` exactly when the map
`QueryMap` returns has the key `name` with value `t`, and `Raw(name)` fails
exactly when `name` is not a key of that map. -/
theorem c15_queryMap_agrees_with_raw (h : Heap) (s : SquareSql) :
    s.QueryMap = s.queries ∧
    (∀ name t, s.Raw h name = (t, none) ↔ (name, t) ∈ (h.read s.QueryMap).entries) ∧
    (∀ name, (s.Raw h name).2 ≠ none ↔ name ∉ (h.read s.QueryMap).entries.map Prod.fst) :=
  ⟨rfl, fun name t => Raw_eq_iff_holds h s name t, fun name => Raw_error_iff_not_hasKey h s name⟩

theorem OnHeap.lookupQuery_eq (s : SquareSql) (name : String) (h : Heap) :
    OnHeap.lookupQuery s name h = (Squaresql.lookupQuery h s name, h) := by
  unfold OnHeap.lookupQuery OnHeap.mapRead Squaresql.lookupQuery
  cases (h.read s.queries).get name <;> rfl

/-- C16, the claim as written, fails for an executor that holds the store's
map: `square.QueryMap()` is the map object at address 0, and `Exec` on
`select` with an executor that deletes `select` from that map leaves a store
whose map is empty, where it had the entry before; a later `Raw("select")`
fails. -/
theorem c16_executor_holding_the_map_counterexample :
    square.QueryMap = some 0 ∧
    (testHeap.read square.queries).entries = [("select", "SELECT * from products")] ∧
    (Heap.read (OnHeap.Exec square (deletingExecer square.QueryMap "select") "select" ["1"]
        ({ db := (testHeap, 0), calls := [] } : OnHeap.Machine Int Unit String)).2.db.1
      square.queries).entries = [] ∧
    (square.Raw (OnHeap.Exec square (deletingExecer square.QueryMap "select") "select" ["1"]
        ({ db := (testHeap, 0), calls := [] } : OnHeap.Machine Int Unit String)).2.db.1
      "select").2 ≠ none := by decide

/-- C16, amended. `Raw`, `QueryMap` and the eight dispatch operations write
nothing to the store themselves. `Raw` and `QueryMap` leave the heap as it
was. A dispatch operation on a name that is not a key leaves the whole state
as it was, for every executor. On a name that is a key the state after the
call is the state the executor's one method call left: the store's map after
the call is the map before the call for every executor whose method leaves
the heap as it is, whatever it returns, and only an executor that itself
writes to the store's map changes it. The operations as steps on the state
are the operations of the store on the heap of that state. -/
theorem c16_lookup_and_dispatch_write_nothing_themselves
    (h : Heap) (s : SquareSql) (name : String)
    (ctx : Ctx) (args : List Arg) (w : OnHeap.Machine σ Ctx Arg)
    (p : Preparer (Heap × σ) Stmt) (pc : PreparerContext (Heap × σ) Ctx Stmt)
    (q : Queryer (Heap × σ) Arg Rows) (qc : QueryerContext (Heap × σ) Ctx Arg Rows)
    (r : QueryRower (Heap × σ) Arg Row) (rc : QueryRowerContext (Heap × σ) Ctx Arg Row)
    (e : Execer (Heap × σ) Arg Result) (ec : ExecerContext (Heap × σ) Ctx Arg Result) :
    ((OnHeap.Raw s name h).2 = h ∧ (OnHeap.Raw s name h).1 = s.Raw h name) ∧
    ((OnHeap.QueryMap s h).2 = h ∧ (OnHeap.QueryMap s h).1 = s.QueryMap) ∧
    (OnHeap.Prepare s p name w = s.Prepare w.db.1 p name w ∧
      OnHeap.PrepareContext s ctx pc name w = s.PrepareContext w.db.1 ctx pc name w ∧
      OnHeap.Query s q name args w = s.Query w.db.1 q name args w ∧
      OnHeap.QueryContext s ctx qc name args w = s.QueryContext w.db.1 ctx qc name args w ∧
      OnHeap.QueryRow s r name args w = s.QueryRow w.db.1 r name args w ∧
      OnHeap.QueryRowContext s ctx rc name args w = s.QueryRowContext w.db.1 ctx rc name args w ∧
      OnHeap.Exec s e name args w = s.Exec w.db.1 e name args w ∧
      OnHeap.ExecContext s ctx ec name args w = s.ExecContext w.db.1 ctx ec name args w) ∧
    (¬ s.hasKey w.db.1 name →
      (OnHeap.Prepare s p name w).2 = w ∧
      (OnHeap.PrepareContext s ctx pc name w).2 = w ∧
      (OnHeap.Query s q name args w).2 = w ∧
      (OnHeap.QueryContext s ctx qc name args w).2 = w ∧
      (OnHeap.QueryRow s r name args w).2 = w ∧
      (OnHeap.QueryRowContext s ctx rc name args w).2 = w ∧
      (OnHeap.Exec s e name args w).2 = w ∧
      (OnHeap.ExecContext s ctx ec name args w).2 = w) ∧
    (∀ text, s.holds w.db.1 name text →
      (OnHeap.Prepare s p name w).2.db = (p.Prepare text w.db).2 ∧
      (OnHeap.PrepareContext s ctx pc name w).2.db = (pc.PrepareContext ctx text w.db).2 ∧
      (OnHeap.Query s q name args w).2.db = (q.Query text args w.db).2 ∧
      (OnHeap.QueryContext s ctx qc name args w).2.db = (qc.QueryContext ctx text args w.db).2 ∧
      (OnHeap.QueryRow s r name args w).2.db = (r.QueryRow text args w.db).2 ∧
      (OnHeap.QueryRowContext s ctx rc name args w).2.db = (rc.QueryRowContext ctx text args w.db).2 ∧
      (OnHeap.Exec s e name args w).2.db = (e.Exec text args w.db).2 ∧
      (OnHeap.ExecContext s ctx ec name args w).2.db = (ec.ExecContext ctx text args w.db).2) ∧
    (∀ text, s.holds w.db.1 name text →
      ((p.Prepare text w.db).2.1 = w.db.1 →
        (OnHeap.Prepare s p name w).2.db.1 = w.db.1) ∧
      ((pc.PrepareContext ctx text w.db).2.1 = w.db.1 →
        (OnHeap.PrepareContext s ctx pc name w).2.db.1 = w.db.1) ∧
      ((q.Query text args w.db).2.1 = w.db.1 →
        (OnHeap.Query s q name args w).2.db.1 = w.db.1) ∧
      ((qc.QueryContext ctx text args w.db).2.1 = w.db.1 →
        (OnHeap.QueryContext s ctx qc name args w).2.db.1 = w.db.1) ∧
      ((r.QueryRow text args w.db).2.1 = w.db.1 →
        (OnHeap.QueryRow s r name args w).2.db.1 = w.db.1) ∧
      ((rc.QueryRowContext ctx text args w.db).2.1 = w.db.1 →
        (OnHeap.QueryRowContext s ctx rc name args w).2.db.1 = w.db.1) ∧
      ((e.Exec text args w.db).2.1 = w.db.1 →
        (OnHeap.Exec s e name args w).2.db.1 = w.db.1) ∧
      ((ec.ExecContext ctx text args w.db).2.1 = w.db.1 →
        (OnHeap.ExecContext s ctx ec name args w).2.db.1 = w.db.1)) := by
  have hagree : (OnHeap.Prepare s p name w = s.Prepare w.db.1 p name w ∧
      OnHeap.PrepareContext s ctx pc name w = s.PrepareContext w.db.1 ctx pc name w ∧
      OnHeap.Query s q name args w = s.Query w.db.1 q name args w ∧
      OnHeap.QueryContext s ctx qc name args w = s.QueryContext w.db.1 ctx qc name args w ∧
      OnHeap.QueryRow s r name args w = s.QueryRow w.db.1 r name args w ∧
      OnHeap.QueryRowContext s ctx rc name args w = s.QueryRowContext w.db.1 ctx rc name args w ∧
      OnHeap.Exec s e name args w = s.Exec w.db.1 e name args w ∧
      OnHeap.ExecContext s ctx ec name args w = s.ExecContext w.db.1 ctx ec name args w) := by
    unfold OnHeap.Prepare OnHeap.PrepareContext OnHeap.Query OnHeap.QueryContext OnHeap.QueryRow
      OnHeap.QueryRowContext OnHeap.Exec OnHeap.ExecContext
      SquareSql.Prepare SquareSql.PrepareContext SquareSql.Query SquareSql.QueryContext
        SquareSql.QueryRow SquareSql.QueryRowContext SquareSql.Exec SquareSql.ExecContext
    rw [OnHeap.lookupQuery_eq]
    rcases hq : Squaresql.lookupQuery w.db.1 s name with ⟨query, _ | err⟩ <;> simp
  have hhit : ∀ text, s.holds w.db.1 name text →
      (OnHeap.Prepare s p name w).2.db = (p.Prepare text w.db).2 ∧
      (OnHeap.PrepareContext s ctx pc name w).2.db = (pc.PrepareContext ctx text w.db).2 ∧
      (OnHeap.Query s q name args w).2.db = (q.Query text args w.db).2 ∧
      (OnHeap.QueryContext s ctx qc name args w).2.db = (qc.QueryContext ctx text args w.db).2 ∧
      (OnHeap.QueryRow s r name args w).2.db = (r.QueryRow text args w.db).2 ∧
      (OnHeap.QueryRowContext s ctx rc name args w).2.db = (rc.QueryRowContext ctx text args w.db).2 ∧
      (OnHeap.Exec s e name args w).2.db = (e.Exec text args w.db).2 ∧
      (OnHeap.ExecContext s ctx ec name args w).2.db = (ec.ExecContext ctx text args w.db).2 := by
    intro text ht
    have hl := lookupQuery_of_holds w.db.1 s name text ht
    obtain ⟨a1, a2, a3, a4, a5, a6, a7, a8⟩ := hagree
    rw [a1, a2, a3, a4, a5, a6, a7, a8]
    simp [SquareSql.Prepare, SquareSql.PrepareContext, SquareSql.Query, SquareSql.QueryContext,
      SquareSql.QueryRow, SquareSql.QueryRowContext, SquareSql.Exec, SquareSql.ExecContext, hl,
      invoke]
  refine ⟨⟨?_, ?_⟩, ⟨rfl, rfl⟩, hagree, ?_, hhit, ?_⟩
  · rw [OnHeap.Raw, OnHeap.lookupQuery_eq]
  · rw [OnHeap.Raw, OnHeap.lookupQuery_eq]
    rfl
  · intro hmiss
    have hl := lookupQuery_of_not_hasKey w.db.1 s name hmiss
    obtain ⟨a1, a2, a3, a4, a5, a6, a7, a8⟩ := hagree
    rw [a1, a2, a3, a4, a5, a6, a7, a8]
    simp [SquareSql.Prepare, SquareSql.PrepareContext, SquareSql.Query, SquareSql.QueryContext,
      SquareSql.QueryRow, SquareSql.QueryRowContext, SquareSql.Exec, SquareSql.ExecContext, hl,
      notFound]
  · intro text ht
    obtain ⟨b1, b2, b3, b4, b5, b6, b7, b8⟩ := hhit text ht
    rw [b1, b2, b3, b4, b5, b6, b7, b8]
    exact ⟨id, id, id, id, id, id, id, id⟩

/-- C16 amended, at the store of the dispatch tests with an executor that keeps
to its own state: on the missing name `insert` the state is unchanged, and on
`select` the heap after `Exec` is the heap before. -/
theorem c16_dispatch_frame_witness :
    ¬ square.hasKey testHeap "insert" ∧
    square.holds testHeap "select" "SELECT * from products" ∧
    (OnHeap.Exec square countingExecer "insert" ["1"]
        ({ db := (testHeap, 0), calls := [] } : OnHeap.Machine Int Unit String)).2 =
      { db := (testHeap, 0), calls := [] } ∧
    (OnHeap.Exec square countingExecer "select" ["1"]
        ({ db := (testHeap, 0), calls := [] } : OnHeap.Machine Int Unit String)).2.db.1 =
      testHeap :=
  have hc := fun name => c16_lookup_and_dispatch_write_nothing_themselves testHeap square name
    () ["1"] ({ db := (testHeap, 0), calls := [] } : OnHeap.Machine Int Unit String)
    (⟨fun _ st => ((some (), none), st)⟩ : Preparer (Heap × Int) Unit)
    (⟨fun _ _ st => ((some (), none), st)⟩ : PreparerContext (Heap × Int) Unit Unit)
    (⟨fun _ _ st => ((some (), none), st)⟩ : Queryer (Heap × Int) String Unit)
    (⟨fun _ _ _ st => ((some (), none), st)⟩ : QueryerContext (Heap × Int) Unit String Unit)
    (⟨fun _ _ st => (some (), st)⟩ : QueryRower (Heap × Int) String Unit)
    (⟨fun _ _ _ st => (some (), st)⟩ : QueryRowerContext (Heap × Int) Unit String Unit)
    countingExecer
    (⟨fun _ _ _ st => ((some (), none), st)⟩ : ExecerContext (Heap × Int) Unit String Unit)
  ⟨by decide, by decide,
    ((hc "insert").2.2.2.1 (by decide)).2.2.2.2.2.2.1,
    ((hc "select").2.2.2.2.2 "SELECT * from products" (by decide)).2.2.2.2.2.2.1 rfl⟩


/-! ## `QueryMap` hands out the store's own map -/

theorem read_modify_same (h : Heap) (f : GoMap → GoMap) (a : Nat) (ha : a < h.length) :
    Heap.read (h.modify f a) (some a) = f (h.read (some a)) := by
  simp [Heap.read, List.getD_eq_getElem?_getD, List.getElem?_modify, ha]

theorem GoMap.get_delete (m : GoMap) (k name : String) :
    (m.delete k).get name = if name = k then none else m.get name := by
  by_cases hk : name = k
  · subst hk
    rw [if_pos rfl]
    apply (lookup_eq_none_iff _ name).2
    intro hmem
    rcases List.mem_map.1 hmem with ⟨e, he, hke⟩
    have hne := (List.mem_filter.1 he).2
    simp [hke] at hne
  · rw [if_neg hk]
    exact lookup_others k name m.entries hk

theorem lookupQuery_after_write (h : Heap) (s : SquareSql) (a : Nat) (k v name : String)
    (hs : s.queries = some a) (ha : a < h.length) :
    lookupQuery (h.write a k v) s name =
      if name = k then (v, none) else lookupQuery h s name := by
  unfold lookupQuery Heap.write
  rw [hs, read_modify_same h _ a ha, GoMap.get_set]
  by_cases hk : name = k <;> simp [hk]

theorem lookupQuery_after_delete (h : Heap) (s : SquareSql) (a : Nat) (k name : String)
    (hs : s.queries = some a) (ha : a < h.length) :
    lookupQuery (h.delete s.queries k) s name =
      if name = k then ("", notFound k) else lookupQuery h s name := by
  unfold lookupQuery Heap.delete
  rw [hs]
  simp only
  rw [read_modify_same h _ a ha, GoMap.get_delete]
  by_cases hk : name = k
  · subst hk; simp
  · simp [hk]

/-- C17, the claim as written, fails: `insert` is not a key of `square`, and
after a caller's `m["insert"] = "INSERT 1"` on the map `square.QueryMap()`
returned, `square.Raw("insert")` returns the inserted text with a nil error. -/
theorem c17_write_through_queryMap_counterexample :
    (square.Raw testHeap "insert").2 ≠ none ∧
    ∃ h1, testHeap.assign square.QueryMap "insert" "INSERT 1" = some h1 ∧
      square.Raw h1 "insert" = ("INSERT 1", none) :=
  ⟨by decide, _, rfl, by decide⟩

/-- C17, amended. `QueryMap` returns the store's own map, not a snapshot of it:
for a store with a non-nil map, a caller's insertion or overwrite `m[k] = v`
and deletion `delete(m, k)` on the returned map are writes to the store's map.
A later lookup, `Raw` or dispatch on the store sees them: after `m[k] = v`
the name `k` is found with text `v`, after `delete(m, k)` the name `k` is not
found, and every other name is looked up as before. -/
theorem c17_queryMap_returns_the_stores_own_map
    (h : Heap) (s : SquareSql) (a : Nat) (k v name : String)
    (hs : s.QueryMap = some a) (ha : a < h.length)
    (args : List Arg) (w : World σ Ctx Arg) (q : Queryer σ Arg Rows) :
    s.QueryMap = s.queries ∧
    h.assign s.QueryMap k v = some (h.write a k v) ∧
    s.Raw (h.write a k v) name = (if name = k then (v, none) else s.Raw h name) ∧
    s.Raw (h.delete s.QueryMap k) name =
      (if name = k then ("", notFound k) else s.Raw h name) ∧
    s.Query (h.write a k v) q k args w =
      invoke ⟨.Query, none, v, args⟩ (q.Query v args) w ∧
    s.Query (h.delete s.QueryMap k) q k args w = ((none, notFound k), w) := by
  have hs1 : s.queries = some a := hs
  refine ⟨rfl, ?_, ?_, ?_, ?_, ?_⟩
  · rw [hs]; rfl
  · exact lookupQuery_after_write h s a k v name hs1 ha
  · exact lookupQuery_after_delete h s a k name hs1 ha
  · have hl := lookupQuery_after_write h s a k v k hs1 ha
    rw [if_pos rfl] at hl
    simp [SquareSql.Query, hl]
  · have hl := lookupQuery_after_delete h s a k k hs1 ha
    rw [if_pos rfl] at hl
    have hq : SquareSql.QueryMap s = s.queries := rfl
    rw [hq]
    simp [SquareSql.Query, hl, notFound]

/-- C17 amended, at the store of the dispatch tests: after a caller deletes
`select` from the map `QueryMap` returned, `Raw("select")` fails. -/
theorem c17_queryMap_witness :
    square.QueryMap = some 0 ∧ 0 < testHeap.length ∧
    square.Raw testHeap "select" = ("SELECT * from products", none) ∧
    square.Raw (testHeap.delete square.QueryMap "select") "select" =
      (if "select" = "select" then ("", notFound "select")
        else square.Raw testHeap "select") :=
  ⟨rfl, by decide, by decide,
    (c17_queryMap_returns_the_stores_own_map testHeap square 0 "select" "" "select" rfl
      (by decide) ([] : List String) freshMock
      (QueryerMock (fun _ _ => (some (), none)))).2.2.2.1⟩

/-! ## `Merge`: nil pointers, and its algebra -/

theorem mergeLoop_nil_pointer (h : Heap) (q : Nat) (dots : List (Option SquareSql))
    (hn : none ∈ dots) : mergeLoop h q dots = none := by
  induction dots generalizing h with
  | nil => cases hn
  | cons d rest ih =>
    cases d with
    | none => rfl
    | some dot =>
      have hr : none ∈ rest := by
        rcases List.mem_cons.1 hn with h0 | h1
        · cases h0
        · exact h1
      simp only [mergeLoop]
      exact ih _ hr

/-- C18, the claim as written, fails: on an argument list that holds a nil
store pointer `Merge` dereferences it and panics. -/
theorem c18_merge_nil_pointer_counterexample :
    Merge mergeHeap [some { queries := some 0 }, none] = none := rfl

/-- C18, amended. For every argument list of non-nil store pointers, the empty
list and stores whose map is nil included, `Merge` does not abort and returns
a store with a non-nil map, a newly allocated map object. On an argument list
that holds a nil store pointer `Merge` panics. -/
theorem c18_merge_returns_for_non_nil_stores (h : Heap) (stores : List SquareSql)
    (hv : ∀ s ∈ stores, h.valid s.queries) :
    (∃ h1 r a, Merge h (stores.map some) = some (h1, r) ∧ r.queries = some a ∧
      h.length ≤ a ∧ a < h1.length) ∧
    (∃ h1 r a, Merge h [] = some (h1, r) ∧ r.queries = some a ∧ a < h1.length) ∧
    (∀ dots : List (Option SquareSql), none ∈ dots → Merge h dots = none) := by
  refine ⟨⟨_, _, h.length, Merge_eq h stores hv, rfl, le_refl _, by simp⟩,
    ⟨_, _, h.length, rfl, rfl, by simp [Heap.alloc]⟩, ?_⟩
  intro dots hn
  simp [Merge, mergeLoop_nil_pointer _ _ dots hn]

/-- C18 amended, at a store whose map is nil next to a store of `mergeHeap`:
`Merge` returns a store with a non-nil map. -/
theorem c18_merge_witness :
    (∀ s ∈ [({ queries := none } : SquareSql), { queries := some 0 }],
      mergeHeap.valid s.queries) ∧
    ∃ h1 r a, Merge mergeHeap
        ([({ queries := none } : SquareSql), { queries := some 0 }].map some) = some (h1, r) ∧
      r.queries = some a ∧ mergeHeap.length ≤ a ∧ a < h1.length :=
  have hv : ∀ s ∈ [({ queries := none } : SquareSql), { queries := some 0 }],
      mergeHeap.valid s.queries := by decide
  ⟨hv, (c18_merge_returns_for_non_nil_stores mergeHeap _ hv).1⟩

theorem valid_append (h : Heap) (m : GoMap) (r : MapRef) (hv : h.valid r) :
    Heap.valid (h ++ [m]) r := by
  cases r with
  | none => trivial
  | some a =>
    simp only [Heap.valid, List.length_append, List.length_singleton] at hv ⊢
    omega

theorem valueOf_append (h : Heap) (m : GoMap) (s : SquareSql) (name : String)
    (hv : h.valid s.queries) : s.valueOf (h ++ [m]) name = s.valueOf h name := by
  unfold SquareSql.valueOf
  rw [read_append_of_valid h m s.queries hv]

theorem valueOf_merged (h : Heap) (m : GoMap) (name : String) :
    SquareSql.valueOf (h ++ [m]) { queries := some h.length } name = m.get name := by
  unfold SquareSql.valueOf
  rw [read_merged]

theorem findSome_congr {α β : Type} (f g : α → Option β) (l : List α)
    (hfg : ∀ x ∈ l, f x = g x) : l.findSome? f = l.findSome? g := by
  induction l with
  | nil => rfl
  | cons a t ih =>
    have ha := hfg a (List.mem_cons_self _ _)
    have ht := ih (fun x hx => hfg x (List.mem_cons_of_mem _ hx))
    simp only [List.findSome?, ha, ht]

theorem valueOf_Merge (h : Heap) (stores : List SquareSql)
    (hv : ∀ s ∈ stores, h.valid s.queries) :
    ∃ h1 r, Merge h (stores.map some) = some (h1, r) ∧
      h1 = h ++ [mergedMap h stores] ∧ r = { queries := some h.length } ∧
      ∀ name, r.valueOf h1 name = stores.reverse.findSome? (fun s => s.valueOf h name) :=
  ⟨_, _, Merge_eq h stores hv, rfl, rfl, fun name => by
    rw [valueOf_merged, get_mergedMap]⟩

theorem findSome_singleton {α β : Type} (f : α → Option β) (a : α) :
    [a].findSome? f = f a := by
  simp only [List.findSome?]
  cases f a <;> rfl

/-- C19. `Merge` is associative and flattens: for stores whose maps are
allocated, the map of `Merge(Merge(xs...), ys...)` and the map of
`Merge(xs..., Merge(ys...))` hold for every name what the map of
`Merge(xs..., ys...)` holds. The empty store is the identity: `Merge()` has an
empty map and `Merge(a)` has the entries of `a`; and `Merge(a, a)` has the
entries of `a`. -/
theorem c19_merge_is_associative_with_empty_identity (h : Heap) (xs ys : List SquareSql)
    (hx : ∀ s ∈ xs, h.valid s.queries) (hy : ∀ s ∈ ys, h.valid s.queries) :
    ∃ hxy rxy, Merge h ((xs ++ ys).map some) = some (hxy, rxy) ∧
      (∃ h1 m1 h2 r, Merge h (xs.map some) = some (h1, m1) ∧
        Merge h1 ((m1 :: ys).map some) = some (h2, r) ∧
        ∀ name, r.valueOf h2 name = rxy.valueOf hxy name) ∧
      (∃ h1 m2 h2 r, Merge h (ys.map some) = some (h1, m2) ∧
        Merge h1 ((xs ++ [m2]).map some) = some (h2, r) ∧
        ∀ name, r.valueOf h2 name = rxy.valueOf hxy name) ∧
      (∃ h1 e, Merge h [] = some (h1, e) ∧ ∀ name, e.valueOf h1 name = none) ∧
      (∀ a : SquareSql, h.valid a.queries →
        (∃ h1 r, Merge h [some a] = some (h1, r) ∧
          ∀ name, r.valueOf h1 name = a.valueOf h name) ∧
        (∃ h1 r, Merge h [some a, some a] = some (h1, r) ∧
          ∀ name, r.valueOf h1 name = a.valueOf h name)) := by
  have hxy : ∀ s ∈ xs ++ ys, h.valid s.queries := by
    intro s hs
    rcases List.mem_append.1 hs with h1 | h1
    · exact hx s h1
    · exact hy s h1
  obtain ⟨hm, rm, hmerge, -, -, hval⟩ := valueOf_Merge h (xs ++ ys) hxy
  have hflat : ∀ name, rm.valueOf hm name =
      (ys.reverse.findSome? (fun s => s.valueOf h name)).or
        (xs.reverse.findSome? (fun s => s.valueOf h name)) := by
    intro name
    rw [hval, List.reverse_append, List.findSome?_append]
  refine ⟨hm, rm, hmerge, ?_, ?_, ?_, ?_⟩
  · obtain ⟨h1, m1, hm1, hh1, hr1, hval1⟩ := valueOf_Merge h xs hx
    have hv1 : ∀ s ∈ m1 :: ys, h1.valid s.queries := by
      intro s hs
      rcases List.mem_cons.1 hs with h0 | h0
      · rw [h0, hr1, hh1]
        simp [Heap.valid]
      · rw [hh1]
        exact valid_append h _ _ (hy s h0)
    obtain ⟨h2, r, hm2, -, -, hval2⟩ := valueOf_Merge h1 (m1 :: ys) hv1
    refine ⟨h1, m1, h2, r, hm1, hm2, ?_⟩
    intro name
    rw [hval2, hflat, List.reverse_cons, List.findSome?_append, findSome_singleton, hval1]
    congr 1
    apply findSome_congr
    intro y hy1
    rw [hh1]
    exact valueOf_append h _ y name (hy y (List.mem_reverse.1 hy1))
  · obtain ⟨h1, m2, hm1, hh1, hr1, hval1⟩ := valueOf_Merge h ys hy
    have hv1 : ∀ s ∈ xs ++ [m2], h1.valid s.queries := by
      intro s hs
      rcases List.mem_append.1 hs with h0 | h0
      · rw [hh1]
        exact valid_append h _ _ (hx s h0)
      · have : s = m2 := by simpa using h0
        rw [this, hr1, hh1]
        simp [Heap.valid]
    obtain ⟨h2, r, hm2, -, -, hval2⟩ := valueOf_Merge h1 (xs ++ [m2]) hv1
    refine ⟨h1, m2, h2, r, hm1, hm2, ?_⟩
    intro name
    rw [hval2, hflat, List.reverse_append, List.findSome?_append, List.reverse_singleton,
      findSome_singleton, hval1]
    congr 1
    apply findSome_congr
    intro x hx1
    rw [hh1]
    exact valueOf_append h _ x name (hx x (List.mem_reverse.1 hx1))
  · obtain ⟨h1, e, hm1, -, -, hval1⟩ := valueOf_Merge h [] (fun s hs => by cases hs)
    exact ⟨h1, e, hm1, fun name => by rw [hval1]; rfl⟩
  · intro a ha
    constructor
    · obtain ⟨h1, r, hm1, -, -, hval1⟩ := valueOf_Merge h [a] (fun s hs => by
        have : s = a := by simpa using hs
        rw [this]; exact ha)
      exact ⟨h1, r, hm1, fun name => by rw [hval1, List.reverse_singleton, findSome_singleton]⟩
    · obtain ⟨h1, r, hm1, -, -, hval1⟩ := valueOf_Merge h [a, a] (fun s hs => by
        have : s = a := by simpa using hs
        rw [this]; exact ha)
      refine ⟨h1, r, hm1, fun name => ?_⟩
      rw [hval1]
      simp only [List.reverse_cons, List.reverse_nil, List.nil_append, List.cons_append,
        List.findSome?]
      cases a.valueOf h name <;> rfl

/-- C19 at the stores of `mergeHeap`, the first two as `xs` and the third as
`ys`: merging the merge of the first two with the third gives `query-a` the
text of the third store, as merging all three does. -/
theorem c19_merge_witness :
    (∀ s ∈ mergeStores.take 2, mergeHeap.valid s.queries) ∧
    (∀ s ∈ mergeStores.drop 2, mergeHeap.valid s.queries) ∧
    ∃ hxy rxy, Merge mergeHeap ((mergeStores.take 2 ++ mergeStores.drop 2).map some) =
        some (hxy, rxy) ∧
      ∃ h1 m1 h2 r, Merge mergeHeap ((mergeStores.take 2).map some) = some (h1, m1) ∧
        Merge h1 ((m1 :: mergeStores.drop 2).map some) = some (h2, r) ∧
        ∀ name, r.valueOf h2 name = rxy.valueOf hxy name :=
  have hx : ∀ s ∈ mergeStores.take 2, mergeHeap.valid s.queries := by decide
  have hy : ∀ s ∈ mergeStores.drop 2, mergeHeap.valid s.queries := by decide
  match c19_merge_is_associative_with_empty_identity mergeHeap (mergeStores.take 2)
    (mergeStores.drop 2) hx hy with
  | ⟨hxy, rxy, hm, hassoc, _, _, _⟩ => ⟨hx, hy, hxy, rxy, hm, hassoc⟩

/-! ## Lookup by key presence -/

/-- C20. Lookup decides by key presence, not by text emptiness. For a store
in which `name` is mapped to the empty string, `Raw(name)` returns the empty
string with a nil error and each dispatch operation invokes the executor
exactly once, with the empty query string. For a name `other` that is not a
key, `Raw(other)` returns the empty string too, but with a non-nil error, and
no dispatch operation invokes the executor. So the empty text alone does not
tell a missing name from a present one. -/
theorem c20_lookup_decides_by_key_presence
    (h : Heap) (s : SquareSql) (name other : String)
    (hq : s.holds h name "") (hmiss : ¬ s.hasKey h other)
    (ctx : Ctx) (args : List Arg) (w : World σ Ctx Arg)
    (p : Preparer σ Stmt) (pc : PreparerContext σ Ctx Stmt)
    (q : Queryer σ Arg Rows) (qc : QueryerContext σ Ctx Arg Rows)
    (r : QueryRower σ Arg Row) (rc : QueryRowerContext σ Ctx Arg Row)
    (e : Execer σ Arg Result) (ec : ExecerContext σ Ctx Arg Result) :
    (s.Raw h name = ("", none) ∧
      (s.Raw h other).1 = "" ∧ (s.Raw h other).2 ≠ none) ∧
    ((s.Prepare h p name w).2.calls = w.calls ++ [⟨.Prepare, none, "", []⟩] ∧
      (s.PrepareContext h ctx pc name w).2.calls =
        w.calls ++ [⟨.PrepareContext, some ctx, "", []⟩] ∧
      (s.Query h q name args w).2.calls = w.calls ++ [⟨.Query, none, "", args⟩] ∧
      (s.QueryContext h ctx qc name args w).2.calls =
        w.calls ++ [⟨.QueryContext, some ctx, "", args⟩] ∧
      (s.QueryRow h r name args w).2.calls = w.calls ++ [⟨.QueryRow, none, "", args⟩] ∧
      (s.QueryRowContext h ctx rc name args w).2.calls =
        w.calls ++ [⟨.QueryRowContext, some ctx, "", args⟩] ∧
      (s.Exec h e name args w).2.calls = w.calls ++ [⟨.Exec, none, "", args⟩] ∧
      (s.ExecContext h ctx ec name args w).2.calls =
        w.calls ++ [⟨.ExecContext, some ctx, "", args⟩]) ∧
    ((s.Prepare h p other w).2 = w ∧
      (s.PrepareContext h ctx pc other w).2 = w ∧
      (s.Query h q other args w).2 = w ∧
      (s.QueryContext h ctx qc other args w).2 = w ∧
      (s.QueryRow h r other args w).2 = w ∧
      (s.QueryRowContext h ctx rc other args w).2 = w ∧
      (s.Exec h e other args w).2 = w ∧
      (s.ExecContext h ctx ec other args w).2 = w) := by
  have hl := lookupQuery_of_holds h s name "" hq
  have hm := lookupQuery_of_not_hasKey h s other hmiss
  refine ⟨?_, ?_, ?_⟩
  · simp [SquareSql.Raw, hl, hm, notFound]
  · simp [SquareSql.Prepare, SquareSql.PrepareContext, SquareSql.Query,
      SquareSql.QueryContext, SquareSql.QueryRow, SquareSql.QueryRowContext, SquareSql.Exec,
      SquareSql.ExecContext, hl, invoke]
  · simp [SquareSql.Prepare, SquareSql.PrepareContext, SquareSql.Query,
      SquareSql.QueryContext, SquareSql.QueryRow, SquareSql.QueryRowContext, SquareSql.Exec,
      SquareSql.ExecContext, hm, notFound]

/-- C20 at a store that maps `blank` to the empty string: `Raw("blank")` is the
empty string with a nil error and `Exec` logs one call with the empty query;
`Raw("missing")` is the empty string with an error and `Exec` logs no call. -/
theorem c20_lookup_witness :
    SquareSql.holds blankHeap { queries := some 0 } "blank" "" ∧
    ¬ SquareSql.hasKey blankHeap { queries := some 0 } "missing" ∧
    SquareSql.Raw blankHeap { queries := some 0 } "blank" = ("", none) ∧
    (SquareSql.Exec blankHeap { queries := some 0 }
        (ExecerMock (fun _ _ => (some (), none))) "blank" ["1"] freshMock).2.calls =
      [] ++ [⟨.Exec, none, "", ["1"]⟩] ∧
    (SquareSql.Exec blankHeap { queries := some 0 }
        (ExecerMock (fun _ _ => (some (), none))) "missing" ["1"] freshMock).2 = freshMock :=
  have hc := c20_lookup_decides_by_key_presence blankHeap { queries := some 0 } "blank"
    "missing" (by decide) (by decide) () ["1"] freshMock
    (PreparerMock (fun _ => (some (), none)))
    (PreparerContextMock (fun _ _ => (some (), none)))
    (QueryerMock (fun _ _ => (some (), none)))
    (QueryerContextMock (fun _ _ _ => (some (), none)))
    (QueryRowerMock (fun _ _ => some ()))
    (QueryRowerContextMock (fun _ _ _ => some ()))
    (ExecerMock (fun _ _ => (some (), none)))
    (ExecerContextMock (fun _ _ _ => (some (), none)))
  ⟨by decide, by decide, hc.1.1, hc.2.1.2.2.2.2.2.2.1, hc.2.2.2.2.2.2.2.2.1⟩

/-- C14 at the input of `TestLoad`, loaded into the empty heap: the error is
nil and the store's map is the map `Scanner.Run` gives for the four lines. -/
theorem c14_load_witness :
    (Load [] testLoadText).2.2 = none ∧
    ∃ s, (Load [] testLoadText).2.1 = some s ∧
      (Load [] testLoadText).1.read s.queries = Scanner.Run (scanLines testLoadText) ∧
      scanLines testLoadText =
        ["", "\t-- name: all-products", "\tselect * from products", "\t"] ∧
      s.Raw (Load [] testLoadText).1 "all-products" = ("select * from products", none) :=
  have hc := c14_load_returns_store_of_run_map [] testLoadText
  match hc.2.2.1 with
  | ⟨s, hs, hread, _, hraw, _⟩ =>
    ⟨hc.1, s, hs, hread, by decide,
      (hraw "all-products" "select * from products").2 (by decide)⟩

end Squaresql
